import Mathlib

/-!
# jump.js: a shallow embedding of the scroll engine

The engine of `src/jump.js` is one closure (`jumper`) holding a set of
variables shared by all the functions defined inside it: `location`,
`elementOffset`, `scrollTo`, `loop`, `done` and `jump`.  The module exports a
single instance of that closure.

Modelling choices.

* JavaScript values are the type `Value`.  Numbers are idealised as exact
  integers together with `NaN`; rounding of binary floating point is outside
  the model.
* A DOM object (the window or an element) is a `Node`: the properties the
  source reads from it, each of them present or missing, as the source itself
  tests for them.
* What the engine does to its host (scroll commits, attribute writes, focus,
  function calls, frame requests, uncaught errors) is recorded in order in a
  log of `Effect`s.
* The host's frame scheduler is the `pending` counter of a `Machine`: the
  number of times `loop` has been handed to `requestAnimationFrame` and not
  yet been called.  A frame calls every one of them with the frame's time.
* The functions a caller passes in (easing, duration) are pure; their results
  are given by `Env.call`.  The completion callback is an effect of the log.
-/

namespace Jump

/-- A DOM object as the engine sees it: each scroll property is a number or is
missing, `scrollTo` and `getBoundingClientRect` are methods that exist or do
not.  The window has `scrollX`, `scrollY`, `pageXOffset`, `pageYOffset` and
`scrollTo`; an element has `scrollTop`, `scrollLeft` and a bounding rectangle. -/
structure Node where
  id : Nat
  scrollY : Option Int
  pageYOffset : Option Int
  scrollTop : Option Int
  scrollX : Option Int
  pageXOffset : Option Int
  scrollLeft : Option Int
  /-- Whether the object has a `scrollTo` method. -/
  scrollTo : Bool
  /-- The `top` and `left` of `getBoundingClientRect()`, when the method exists. -/
  rect : Option (Int × Int)
deriving DecidableEq, Repr

/-- JavaScript values.  A function is named by a number; `Env.call` gives its
result. -/
inductive Value where
  | undefined
  | null
  | bool (b : Bool)
  | num (n : Int)
  | nan
  | str (s : String)
  | node (n : Node)
  | func (f : Nat)
deriving DecidableEq, Repr

/-- What the engine does to its host, in the order it does it. -/
inductive Effect where
  /-- The call `container.scrollTo(x, y)`. -/
  | scrollToCall (c : Node) (x y : Value)
  /-- The assignment `container.scrollTop = v`. -/
  | setScrollTop (c : Node) (v : Value)
  /-- The assignment `container.scrollLeft = v`. -/
  | setScrollLeft (c : Node) (v : Value)
  /-- The call `element.setAttribute(name, value)`. -/
  | setAttribute (e : Node) (name value : String)
  /-- The call `element.focus()`. -/
  | focus (e : Node)
  /-- A call of a function value with the given arguments. -/
  | call (f : Nat) (args : List Value)
  /-- The call `requestAnimationFrame(loop)`. -/
  | requestFrame
  /-- An exception left the engine (a `TypeError`, or the `SyntaxError` of
  `querySelector`); the function that was running stopped there. -/
  | uncaught
deriving DecidableEq, Repr

/-- The second argument of `jump`.  A missing option is `undefined`; calling
`jump` without options is `Options.none`. -/
structure Options where
  axis : Value
  duration : Value
  offset : Value
  callback : Value
  easing : Value
  a11y : Value
  exact : Value
  container : Value
deriving DecidableEq, Repr

/-- The default `options = {}`. -/
def Options.none : Options :=
  ⟨.undefined, .undefined, .undefined, .undefined, .undefined, .undefined, .undefined, .undefined⟩

/-- The host at the moment of a call.  `easeInOutQuad` is the function imported
from `./easing.js`.  The conversions of the language that the model leaves
open (numbers from strings, text of an object, order of strings) are fields,
so that every theorem holds whatever they are. -/
structure Env where
  window : Node
  /-- The function `document.querySelector`: `none` when it throws, `some none` when it
  answers `null`. -/
  querySelector : String → Option (Option Node)
  easeInOutQuad : Nat
  call : Nat → List Value → Value
  stringToNumber : String → Option Int
  display : Value → String
  stringLt : String → String → Bool

/-- The variables of the closure (lines 7 to 27 of the source). -/
structure Vars where
  container : Value
  element : Value
  start : Value
  stop : Value
  axis : Value
  exact : Value
  offset : Value
  easing : Value
  a11y : Value
  distance : Value
  duration : Value
  timeStart : Value
  timeElapsed : Value
  next : Value
  callback : Value
deriving DecidableEq, Repr

/-- The variables as `jumper()` declares them: all `undefined`. -/
def Vars.init : Vars :=
  ⟨.undefined, .undefined, .undefined, .undefined, .undefined, .undefined, .undefined,
   .undefined, .undefined, .undefined, .undefined, .undefined, .undefined, .undefined,
   .undefined⟩

/-- The engine together with its host: the closure's variables, the number of
`loop` callbacks waiting for the next frame, and the effects so far. -/
structure Machine where
  vars : Vars
  pending : Nat
  log : List Effect
deriving DecidableEq, Repr

/-! ## The operators of the language -/

/-- The test `ToBoolean`. -/
def truthy : Value → Bool
  | .undefined => false
  | .null => false
  | .bool b => b
  | .num n => n != 0
  | .nan => false
  | .str s => s != ""
  | .node _ => true
  | .func _ => true

/-- The operator `a || b`. -/
def jsOr (a b : Value) : Value := if truthy a then a else b

/-- The operator `typeof`. -/
def typeOf : Value → String
  | .undefined => "undefined"
  | .null => "object"
  | .bool _ => "boolean"
  | .num _ => "number"
  | .nan => "number"
  | .str _ => "string"
  | .node _ => "object"
  | .func _ => "function"

/-- The conversion `ToPrimitive`: an object or a function becomes its text. -/
def toPrimitive (env : Env) : Value → Value
  | .node n => .str (env.display (.node n))
  | .func f => .str (env.display (.func f))
  | v => v

/-- The conversion `ToNumber` of a primitive value; `none` is `NaN`. -/
def primToNumber (env : Env) : Value → Option Int
  | .undefined => none
  | .null => some 0
  | .bool b => some (if b then 1 else 0)
  | .num n => some n
  | .nan => none
  | .str s => env.stringToNumber s
  | .node _ => none
  | .func _ => none

/-- The conversion `ToNumber`. -/
def toNumber (env : Env) (v : Value) : Option Int := primToNumber env (toPrimitive env v)

/-- The conversion `ToString` of a primitive value. -/
def primToString (env : Env) : Value → String
  | .undefined => "undefined"
  | .null => "null"
  | .bool b => if b then "true" else "false"
  | .num n => toString n
  | .nan => "NaN"
  | .str s => s
  | v => env.display v

/-- The operator `a - b`. -/
def jsSub (env : Env) (a b : Value) : Value :=
  match toNumber env a, toNumber env b with
  | some x, some y => .num (x - y)
  | _, _ => .nan

/-- The operator `a + b`: text when either side is text after `ToPrimitive`,
a sum of numbers otherwise. -/
def jsAdd (env : Env) (a b : Value) : Value :=
  match toPrimitive env a, toPrimitive env b with
  | .str s, q => .str (s ++ primToString env q)
  | p, .str t => .str (primToString env p ++ t)
  | p, q =>
    match primToNumber env p, primToNumber env q with
    | some x, some y => .num (x + y)
    | _, _ => .nan

/-- The operator `a < b`. -/
def jsLt (env : Env) (a b : Value) : Bool :=
  match toPrimitive env a, toPrimitive env b with
  | .str s, .str t => env.stringLt s t
  | p, q =>
    match primToNumber env p, primToNumber env q with
    | some x, some y => decide (x < y)
    | _, _ => false

/-- A property of a DOM object that is a number when present. -/
def prop : Option Int → Value
  | some n => .num n
  | none => .undefined

/-- Record an uncaught exception. -/
def uncaught (m : Machine) : Machine := { m with log := m.log ++ [Effect.uncaught] }

/-! ## The functions of the closure -/

/-- The function `location(axis)` (lines 31 to 35), reading the variable `container`.
`none` is the `TypeError` of reading a property of a value that is not an
object. -/
def location (v : Vars) (axis : Value) : Option Value :=
  match v.container with
  | .node c =>
    some (if axis = .str "y"
      then jsOr (jsOr (prop c.scrollY) (prop c.pageYOffset)) (prop c.scrollTop)
      else jsOr (jsOr (prop c.scrollX) (prop c.pageXOffset)) (prop c.scrollLeft))
  | _ => none

/-- The bounding rectangle of a value: `none` is the `TypeError` of calling
`getBoundingClientRect` on a value that has no such method. -/
def boundingRect : Value → Option (Int × Int)
  | .node e => e.rect
  | _ => none

/-- The function `elementOffset(element, axis)` (lines 39 to 57), reading the variables
`container` and `start`. -/
def elementOffset (env : Env) (v : Vars) (element : Value) (axis : Value) : Option Value :=
  match boundingRect element, v.container with
  | some (elementTop, elementLeft), .node c =>
    if axis = .str "y" then
      let containerTop : Int := match c.rect with
        | some (top, _) => top
        | none => 0
      some (jsAdd env (jsSub env (.num elementTop) (.num containerTop)) v.start)
    else
      let containerLeft : Int := match c.rect with
        | some (_, left) => left
        | none => 0
      some (jsAdd env (jsSub env (.num elementLeft) (.num containerLeft)) v.start)
  | _, _ => none

/-- The function `scrollTo(distance)` (lines 61 to 71), reading the variables `axis` and
`container`: the one effect it has, or `none` for the `TypeError` of a
container that is not an object. -/
def scrollTo (v : Vars) (distance : Value) : Option Effect :=
  match v.container with
  | .node c =>
    if v.axis = .str "y" then
      some (if c.scrollTo then .scrollToCall c (.num 0) distance else .setScrollTop c distance)
    else
      some (if c.scrollTo then .scrollToCall c distance (.num 0) else .setScrollLeft c distance)
  | _ => none

/-- Lines 105 and 108: `element.setAttribute('tabindex', '-1')` and `element.focus()`. -/
def focusEffects : Value → Option (List Effect)
  | .node e => some [.setAttribute e "tabindex" "-1", .focus e]
  | _ => none

/-- Lines 112 to 114: the callback is called when it is a function. -/
def callbackEffects : Value → List Effect
  | .func f => [.call f []]
  | _ => []

/-- Lines 103 to 109 of `done`: the focus transfer, made when `element && a11y`
is truthy.  `none` is the `TypeError` of a truthy `element` without the two
methods. -/
def focusTransfer (v : Vars) : Option (List Effect) :=
  if truthy v.element && truthy v.a11y then focusEffects v.element else some []

/-- The function `done()` (lines 98 to 118). -/
def done (env : Env) (m : Machine) : Machine :=
  let v := m.vars
  -- account for rAF time rounding inaccuracies
  match scrollTo v (jsAdd env v.start v.distance) with
  | none => uncaught m
  | some e =>
    -- if scrolling to an element, and accessibility is enabled
    match focusTransfer v with
    | none => uncaught { m with log := m.log ++ [e] }
    | some fx =>
      -- if it exists, fire the callback; reset time for next jump
      { vars := { v with timeStart := .bool false }
        pending := m.pending
        log := m.log ++ [e] ++ fx ++ callbackEffects v.callback }

/-- A call `f(args)` of a value: `none` is the `TypeError` of calling what is not
a function. -/
def callValue (env : Env) (f : Value) (args : List Value) : Option (Effect × Value) :=
  match f with
  | .func g => some (.call g args, env.call g args)
  | _ => none

/-- Lines 77 to 82 of `loop`: `timeStart` is set when it is falsy, then
`timeElapsed` is computed. -/
def loopTime (env : Env) (timeCurrent : Int) (v : Vars) : Vars :=
  -- store time scroll started, if not started already
  let v : Vars := if !truthy v.timeStart then { v with timeStart := .num timeCurrent } else v
  -- determine time spent scrolling so far
  { v with timeElapsed := jsSub env (.num timeCurrent) v.timeStart }

/-- The function `loop(timeCurrent)` (lines 75 to 94). -/
def loop (env : Env) (timeCurrent : Int) (m : Machine) : Machine :=
  let v : Vars := loopTime env timeCurrent m.vars
  -- calculate next scroll position
  match callValue env v.easing [v.timeElapsed, v.start, v.distance, v.duration] with
  | none => uncaught { m with vars := v }
  | some (c, next) =>
    let v : Vars := { v with next := next }
    -- scroll to it
    match scrollTo v next with
    | none => uncaught { m with vars := v, log := m.log ++ [c] }
    | some e =>
      -- check progress
      if jsLt env v.timeElapsed v.duration then
        { vars := v, pending := m.pending + 1, log := m.log ++ [c, e, Effect.requestFrame] }
      else
        done env { vars := v, pending := m.pending, log := m.log ++ [c, e] }

/-- Lines 124 to 130 of `jump`: the options, or their defaults. -/
def jumpOptions (env : Env) (options : Options) (v : Vars) : Vars :=
  { v with
    axis := jsOr options.axis (.str "y")
    duration := jsOr options.duration (.num 1000)
    offset := jsOr options.offset (.num 0)
    callback := options.callback
    easing := jsOr options.easing (.func env.easeInOutQuad)
    a11y := jsOr options.a11y (.bool false)
    exact := jsOr options.exact (.bool false) }

/-- Lines 133 to 145 of `jump`: the value assigned to `container` by the
`switch` on `typeof options.container`; `none` when `querySelector` throws. -/
def jumpContainer (env : Env) (options : Options) : Option Value :=
  if typeOf options.container = "object" then some options.container
  else match options.container with
    | .str s =>
      match env.querySelector s with
      | none => none
      | some (some n) => some (.node n)
      | some none => some .null
    | _ => some (.node env.window)

/-- Lines 151 to 172 of `jump`: the `switch` on `typeof target`.  An exception
leaves the variables as they were when it was thrown. -/
def jumpTarget (env : Env) (target : Value) (v : Vars) : Except Vars Vars :=
  if typeOf target = "number" then
    .ok { v with
      element := .undefined
      a11y := .bool false
      stop := if truthy v.exact then target else jsAdd env v.start target }
  else if typeOf target = "object" then
    let v : Vars := { v with element := target }
    match elementOffset env v v.element v.axis with
    | some stop => .ok { v with stop := stop }
    | none => .error v
  else match target with
    | .str s =>
      match env.querySelector s with
      | none => .error v
      | some r =>
        let v : Vars := { v with element := match r with
          | some n => Value.node n
          | none => Value.null }
        match elementOffset env v v.element v.axis with
        | some stop => .ok { v with stop := stop }
        | none => .error v
    | _ => .ok v

/-- Lines 178 to 188 of `jump`: the `switch` on `typeof options.duration`, with
the call it makes when the option is a function. -/
def jumpDuration (env : Env) (options : Options) (v : Vars) : Vars × List Effect :=
  if typeOf options.duration = "number" then
    ({ v with duration := options.duration }, [])
  else match options.duration with
    | .func f => ({ v with duration := env.call f [v.distance] }, [Effect.call f [v.distance]])
    | _ => (v, [])

/-- The function `jump(target, options)` (lines 122 to 192). -/
def jump (env : Env) (target : Value) (options : Options) (m : Machine) : Machine :=
  -- resolve options, or use defaults
  let v : Vars := jumpOptions env options m.vars
  -- resolve container
  match jumpContainer env options with
  | none => uncaught { m with vars := v }
  | some c =>
    let v : Vars := { v with container := c }
    -- cache starting position
    match location v v.axis with
    | none => uncaught { m with vars := v }
    | some start =>
      let v : Vars := { v with start := start }
      -- resolve target
      match jumpTarget env target v with
      | .error v => uncaught { m with vars := v }
      | .ok v =>
        -- resolve scroll distance, accounting for offset
        let v : Vars := { v with distance := jsAdd env (jsSub env v.stop v.start) v.offset }
        -- resolve duration
        let r := jumpDuration env options v
        -- start the loop
        { vars := r.1, pending := m.pending + 1, log := m.log ++ r.2 ++ [Effect.requestFrame] }

/-- One frame of the host: every `loop` callback waiting is called with the
frame's time; the ones requested meanwhile wait for the next frame. -/
def frame (env : Env) (t : Int) (m : Machine) : Machine :=
  Nat.iterate (loop env t) m.pending { m with pending := 0 }

/-- A sequence of frames, given by their times. -/
def frames (env : Env) (ts : List Int) (m : Machine) : Machine :=
  ts.foldl (fun m t => frame env t m) m

/-- A machine whose closure holds the variables `v`, with no callback waiting
and nothing logged yet. -/
def Machine.idle (v : Vars) : Machine := ⟨v, 0, []⟩

/-! ## Reading the log -/

/-- The offset an effect commits to the scroll surface along `axis`, when the
effect is a scroll commit. -/
def Effect.committed (axis : Value) : Effect → Option Value
  | .scrollToCall _ x y => some (if axis = .str "y" then y else x)
  | .setScrollTop _ v => some v
  | .setScrollLeft _ v => some v
  | _ => none

/-- The offsets committed to the scroll surface, in order. -/
def commits (axis : Value) (log : List Effect) : List Value :=
  log.filterMap (Effect.committed axis)

/-- The variables that `loop` and `done` only read: what `jump` resolved. -/
def Vars.resolved (v : Vars) : Vars :=
  { v with timeStart := .undefined, timeElapsed := .undefined, next := .undefined }

/-- A run in progress: one `loop` callback waits, nothing was thrown, and the
resolved variables are those of `r`. -/
def Running (r : Vars) (m : Machine) : Prop :=
  m.pending = 1 ∧ Effect.uncaught ∉ m.log ∧ m.vars.resolved = r.resolved

/-- A run stopped by an exception. -/
def Failed (m : Machine) : Prop :=
  m.pending = 0 ∧ Effect.uncaught ∈ m.log

/-- A run that has completed: no callback waits, nothing was thrown, and the
last offset committed is `start + distance` of the resolved variables `r`. -/
def Finished (env : Env) (r : Vars) (m : Machine) : Prop :=
  m.pending = 0 ∧ Effect.uncaught ∉ m.log ∧
    (commits r.axis m.log).getLast? = some (jsAdd env r.start r.distance)

/-- The variables `v` with the six that `jumpOptions` and the two assignments
after it leave alone taken from elsewhere. -/
def Vars.graft (v : Vars) (element stop distance timeStart timeElapsed next : Value) : Vars :=
  { v with element := element, stop := stop, distance := distance,
           timeStart := timeStart, timeElapsed := timeElapsed, next := next }

/-- The effect of `scrollTo(distance)` on a container that is the object `c`
(lines 62 to 70). -/
def commitEffect (c : Node) (axis : Value) (distance : Value) : Effect :=
  if axis = .str "y" then
    (if c.scrollTo then .scrollToCall c (.num 0) distance else .setScrollTop c distance)
  else
    (if c.scrollTo then .scrollToCall c distance (.num 0) else .setScrollLeft c distance)

/-- The position of an object along an axis, as the specification words it:
`top` for the primary axis `'y'`, `left` for the cross axis, and 0 for an
object without bounding geometry. -/
def positionAlong (axis : Value) : Option (Int × Int) → Int
  | some (top, left) => if axis = .str "y" then top else left
  | none => 0

/-- The element a target stands for: the object itself, or what `querySelector`
finds for a string. -/
def targetElement (env : Env) : Value → Option Node
  | .node el => some el
  | .str s =>
    match env.querySelector s with
    | some (some el) => some el
    | _ => none
  | _ => none

/-- The effects of a focus transfer, as `done` makes them. -/
def Effect.isFocus : Effect → Bool
  | .setAttribute _ _ _ => true
  | .focus _ => true
  | _ => false

/-- The arguments of the easing call of line 85, in a tick at time `t` that
finds the variables `v`. -/
def loopArgs (env : Env) (t : Int) (v : Vars) : List Value :=
  [(loopTime env t v).timeElapsed, (loopTime env t v).start, (loopTime env t v).distance,
    (loopTime env t v).duration]

/-- The variables after line 85 of a tick at time `t` whose easing is the
function `g`. -/
def loopVars (env : Env) (t : Int) (v : Vars) (g : Nat) : Vars :=
  { loopTime env t v with next := env.call g (loopArgs env t v) }

/-- The scroll position (x, y) a surface is asked to take by an effect, from
the position `p` it has: `scrollTo(x, y)` asks for both coordinates, an
assignment to `scrollTop` or `scrollLeft` for one of them. -/
def requestedPosition (p : Value × Value) : Effect → Value × Value
  | .scrollToCall _ x y => (x, y)
  | .setScrollTop _ v => (p.1, v)
  | .setScrollLeft _ v => (v, p.2)
  | _ => p

/-- The effects of a tick of `loop` before it decides to go on or to stop: the
easing call, with its four arguments, a scroll commit, a frame request. -/
def Effect.isTick : Effect → Bool
  | .call _ args => args.length == 4
  | .scrollToCall _ _ _ => true
  | .setScrollTop _ _ => true
  | .setScrollLeft _ _ => true
  | .requestFrame => true
  | _ => false

/-- A run in progress whose log, since `l0`, holds the effects of ticks only. -/
def RunningLog (r : Vars) (l0 : List Effect) (m : Machine) : Prop :=
  m.pending = 1 ∧ m.vars.resolved = r.resolved ∧
    ∃ ticks : List Effect, m.log = l0 ++ ticks ∧ ∀ e ∈ ticks, e.isTick = true

/-- A run that went through `done`: since `l0` the log holds the effects of
ticks, then the commit of `start + distance`, the focus transfer and the
callback, and `timeStart` is `false`. -/
def FinishedLog (env : Env) (r : Vars) (l0 : List Effect) (m : Machine) : Prop :=
  m.pending = 0 ∧ m.vars.resolved = r.resolved ∧ m.vars.timeStart = .bool false ∧
    ∃ (ticks : List Effect) (c : Node) (fx : List Effect),
      r.container = .node c ∧ focusTransfer r = some fx ∧ (∀ e ∈ ticks, e.isTick = true) ∧
      m.log = l0 ++ ticks ++ [commitEffect c r.axis (jsAdd env r.start r.distance)] ++ fx
        ++ callbackEffects r.callback

/-- The focus transfer the specification expects of a run: the target's
element marked with `tabindex` -1 and focused when the target is an element
(or a string resolved to one) and the `a11y` option is set, nothing
otherwise. -/
def expectedFocus (env : Env) (target : Value) (options : Options) : List Effect :=
  match targetElement env target with
  | some el =>
    if truthy options.a11y then [.setAttribute el "tabindex" "-1", .focus el] else []
  | none => []

/-- An effect computed from the resolved variables `r`: a call of the easing of
`r` on its `start`, `distance` and `duration`, the commit of such a call's
result or of `start + distance`, an effect of its focus transfer, the call of
its callback, a frame request, or an uncaught exception. -/
def EffectOfRun (env : Env) (r : Vars) (e : Effect) : Prop :=
  (∃ g elapsed, r.easing = .func g ∧
      e = .call g [elapsed, r.start, r.distance, r.duration]) ∨
    (∃ c g elapsed, r.container = .node c ∧ r.easing = .func g ∧
      e = commitEffect c r.axis (env.call g [elapsed, r.start, r.distance, r.duration])) ∨
    (∃ c, r.container = .node c ∧ e = commitEffect c r.axis (jsAdd env r.start r.distance)) ∨
    (∃ fx, focusTransfer r = some fx ∧ e ∈ fx) ∨
    e ∈ callbackEffects r.callback ∨
    e = .requestFrame ∨
    e = .uncaught

/-! ## A host to evaluate the engine on -/

/-- A window scrolled to `y` along the vertical axis and to 0 along the other:
it has `scrollX`, `scrollY`, `pageXOffset`, `pageYOffset` and `scrollTo`, and
neither `scrollTop`, `scrollLeft` nor a bounding rectangle. -/
def exampleWindow (y : Int) : Node :=
  ⟨0, some y, some y, none, some 0, some 0, none, true, none⟩

/-- An element scrolled to `scrollTop`, whose bounding rectangle has the given
`top` (and `left` 0); it has no `scrollTo` method. -/
def exampleElement (id : Nat) (top scrollTop : Int) : Node :=
  ⟨id, none, none, some scrollTop, none, none, some 0, false, some (top, 0)⟩

/-- The functions of the example host: 0 is a linear easing, 3 is a duration
function giving twice the distance. -/
def exampleCall : Nat → List Value → Value
  | 0, [.num t, .num b, .num c, .num d] => .num (b + c * t / (if d = 0 then 1 else d))
  | 3, [.num d] => .num (2 * d)
  | _, _ => .nan

/-- A host whose window is scrolled to `y`, where the selector `#target`
finds an element 800 below the top of the viewport. -/
def exampleEnv (y : Int) : Env where
  window := exampleWindow y
  querySelector := fun s => if s = "#target" then some (some (exampleElement 1 800 0)) else some none
  easeInOutQuad := 0
  call := exampleCall
  stringToNumber := fun s => s.toInt?
  display := fun _ => "[object Object]"
  stringLt := fun a b => decide (a < b)

/-! ## Lemmas on single steps -/

theorem frame_idle (env : Env) (t : Int) (m : Machine) (h : m.pending = 0) :
    frame env t m = m := by
  cases m; simp_all [frame]

theorem frames_idle (env : Env) (ts : List Int) (m : Machine) (h : m.pending = 0) :
    frames env ts m = m := by
  induction ts with
  | nil => rfl
  | cons t ts ih => simp [frames, frame_idle env t m h] ; exact ih

theorem frame_one (env : Env) (t : Int) (m : Machine) (h : m.pending = 1) :
    frame env t m = loop env t { m with pending := 0 } := by
  simp [frame, h]

theorem scrollTo_committed (v : Vars) (d : Value) (e : Effect) (h : scrollTo v d = some e) :
    e.committed v.axis = some d := by
  unfold scrollTo at h
  split at h
  · split_ifs at h <;> simp at h <;> subst h <;> simp [Effect.committed, *]
  · simp at h

theorem jumpDuration_log (env : Env) (options : Options) (v : Vars) :
    Effect.uncaught ∉ (jumpDuration env options v).2 := by
  unfold jumpDuration
  split
  · simp
  · split <;> simp

theorem jump_cases (env : Env) (target : Value) (options : Options) (m : Machine) :
    ((jump env target options m).pending = m.pending + 1 ∧
        (Effect.uncaught ∈ (jump env target options m).log ↔ Effect.uncaught ∈ m.log)) ∨
    ((jump env target options m).pending = m.pending ∧
        Effect.uncaught ∈ (jump env target options m).log) := by
  unfold jump
  simp only []
  split
  · simp [uncaught]
  · split
    · simp [uncaught]
    · split
      · simp [uncaught]
      · simp [jumpDuration_log]
theorem commits_append (axis : Value) (a b : List Effect) :
    commits axis (a ++ b) = commits axis a ++ commits axis b := by
  simp [commits]

theorem commits_callbackEffects (axis : Value) (cb : Value) :
    commits axis (callbackEffects cb) = [] := by
  cases cb <;> simp [commits, callbackEffects, Effect.committed]

theorem commits_focusTransfer (axis : Value) (v : Vars) (fx : List Effect)
    (h : focusTransfer v = some fx) : commits axis fx = [] := by
  unfold focusTransfer at h
  split_ifs at h
  · unfold focusEffects at h
    split at h
    · simp at h; subst h; simp [commits, Effect.committed]
    · simp at h
  · simp at h; subst h; rfl

theorem uncaught_not_mem_callbackEffects (cb : Value) :
    Effect.uncaught ∉ callbackEffects cb := by
  cases cb <;> simp [callbackEffects]

theorem uncaught_not_mem_focusTransfer (v : Vars) (fx : List Effect)
    (h : focusTransfer v = some fx) : Effect.uncaught ∉ fx := by
  unfold focusTransfer at h
  split_ifs at h
  · unfold focusEffects at h
    split at h
    · simp at h; subst h; simp
    · simp at h
  · simp at h; subst h; simp

theorem scrollTo_ne_uncaught (v : Vars) (d : Value) (e : Effect) (h : scrollTo v d = some e) :
    e ≠ Effect.uncaught := by
  unfold scrollTo at h
  split at h
  · split_ifs at h <;> simp at h <;> subst h <;> simp
  · simp at h

theorem resolved_fields (a b : Vars) (h : a.resolved = b.resolved) :
    a.container = b.container ∧ a.axis = b.axis ∧ a.start = b.start ∧
      a.distance = b.distance ∧ a.duration = b.duration ∧ a.easing = b.easing ∧
      a.element = b.element ∧ a.a11y = b.a11y ∧ a.callback = b.callback := by
  simp only [Vars.resolved, Vars.mk.injEq] at h
  tauto

theorem scrollTo_congr (a b : Vars) (d : Value) (h : a.resolved = b.resolved) :
    scrollTo a d = scrollTo b d := by
  obtain ⟨h1, h2, _⟩ := resolved_fields a b h
  simp [scrollTo, h1, h2]

theorem callValue_ne_uncaught (env : Env) (f : Value) (args : List Value) (c : Effect)
    (x : Value) (h : callValue env f args = some (c, x)) : c ≠ Effect.uncaught := by
  unfold callValue at h
  split at h
  · simp at h; rw [← h.1]; simp
  · simp at h

theorem done_cases (env : Env) (r : Vars) (m : Machine) (hp : m.pending = 0)
    (hl : Effect.uncaught ∉ m.log) (hr : m.vars.resolved = r.resolved) :
    Failed (done env m) ∨ Finished env r (done env m) := by
  obtain ⟨_, ha, hs, hd, _⟩ := resolved_fields _ _ hr
  unfold done
  simp only []
  split
  · left; simp [Failed, uncaught, hp]
  · rename_i e he
    split
    · left; simp [Failed, uncaught, hp]
    · rename_i fx hfx
      right
      refine ⟨hp, ?_, ?_⟩
      · simp [hl, scrollTo_ne_uncaught _ _ _ he |>.symm, uncaught_not_mem_focusTransfer _ _ hfx,
          uncaught_not_mem_callbackEffects]
      · have hc := scrollTo_committed _ _ _ he
        simp only [commits_append, commits_callbackEffects, commits_focusTransfer _ _ _ hfx,
          List.append_nil]
        simp [commits, ← ha, hc, hs, hd]

theorem loopTime_resolved (env : Env) (t : Int) (v : Vars) :
    (loopTime env t v).resolved = v.resolved := by
  unfold loopTime
  split_ifs <;> simp [Vars.resolved]

theorem loop_cases (env : Env) (r : Vars) (t : Int) (m : Machine) (hp : m.pending = 0)
    (hl : Effect.uncaught ∉ m.log) (hr : m.vars.resolved = r.resolved) :
    Running r (loop env t m) ∨ Failed (loop env t m) ∨ Finished env r (loop env t m) := by
  have hv : ∀ y : Value, ({ loopTime env t m.vars with next := y } : Vars).resolved
      = r.resolved := by
    intro y
    rw [← hr, ← loopTime_resolved env t m.vars]
    simp [Vars.resolved]
  unfold loop
  dsimp only
  split
  · right; left; simp [Failed, uncaught, hp]
  · rename_i c next hc
    split
    · right; left; simp [Failed, uncaught, hp]
    · rename_i e he
      have hce := callValue_ne_uncaught _ _ _ _ _ hc
      have hee := scrollTo_ne_uncaught _ _ _ he
      split
      · left
        refine ⟨by simp [hp], ?_, ?_⟩
        · simp [hl, hce.symm, hee.symm]
        · exact hv _
      · right
        apply done_cases
        · exact hp
        · simp [hl, hce.symm, hee.symm]
        · exact hv _

theorem frames_cases (env : Env) (r : Vars) (ts : List Int) (m : Machine)
    (h : Running r m ∨ Failed m ∨ Finished env r m) :
    Running r (frames env ts m) ∨ Failed (frames env ts m) ∨ Finished env r (frames env ts m) := by
  induction ts generalizing m with
  | nil => exact h
  | cons t ts ih =>
    have hstep : frames env (t :: ts) m = frames env ts (frame env t m) := rfl
    rw [hstep]
    apply ih
    rcases h with h | h | h
    · rw [frame_one env t m h.1]
      exact loop_cases env r t _ rfl h.2.1 h.2.2
    · rw [frame_idle env t m h.1]; exact Or.inr (Or.inl h)
    · rw [frame_idle env t m h.1]; exact Or.inr (Or.inr h)

/-! ## The claims -/

/-- C1: a run that reaches completion (its one callback chain has ended and
nothing was thrown), whatever the easing function and the frame times, commits
as its last offset exactly `start + distance`, both as resolved by `jump`. -/
theorem C1_last_commit_is_start_plus_distance (env : Env) (target : Value)
    (options : Options) (v0 : Vars) (ts : List Int)
    (hdone : (frames env ts (jump env target options (Machine.idle v0))).pending = 0)
    (hok : Effect.uncaught ∉ (frames env ts (jump env target options (Machine.idle v0))).log) :
    (commits (jump env target options (Machine.idle v0)).vars.axis
        (frames env ts (jump env target options (Machine.idle v0))).log).getLast?
      = some (jsAdd env (jump env target options (Machine.idle v0)).vars.start
          (jump env target options (Machine.idle v0)).vars.distance) := by
  rcases jump_cases env target options (Machine.idle v0) with ⟨hp, hu⟩ | ⟨hp, hu⟩
  · have hrun : Running (jump env target options (Machine.idle v0)).vars
        (jump env target options (Machine.idle v0)) :=
      ⟨by simpa [Machine.idle] using hp, by simpa [Machine.idle] using hu, rfl⟩
    rcases frames_cases env _ ts _ (Or.inl hrun) with h | h | h
    · rw [h.1] at hdone; cases hdone
    · exact absurd h.2 hok
    · exact h.2.2
  · have hp0 : (jump env target options (Machine.idle v0)).pending = 0 := by
      simpa [Machine.idle] using hp
    rw [frames_idle env ts _ hp0] at hok
    exact absurd hu hok

/-- C1, at a run of three frames from a window scrolled to 300. -/
theorem C1_last_commit_is_start_plus_distance_witness :
    (commits (jump (exampleEnv 300) (.num 200) Options.none (Machine.idle Vars.init)).vars.axis
        (frames (exampleEnv 300) [10, 500, 1010]
          (jump (exampleEnv 300) (.num 200) Options.none (Machine.idle Vars.init))).log).getLast?
      = some (jsAdd (exampleEnv 300)
          (jump (exampleEnv 300) (.num 200) Options.none (Machine.idle Vars.init)).vars.start
          (jump (exampleEnv 300) (.num 200) Options.none (Machine.idle Vars.init)).vars.distance) :=
  C1_last_commit_is_start_plus_distance (exampleEnv 300) (.num 200) Options.none Vars.init
    [10, 500, 1010] (by decide) (by decide)

theorem jump_ok (env : Env) (target : Value) (options : Options) (m : Machine)
    (h : (jump env target options m).pending = m.pending + 1) :
    ∃ c start v, jumpContainer env options = some c ∧
      location { jumpOptions env options m.vars with container := c }
        (jumpOptions env options m.vars).axis = some start ∧
      jumpTarget env target
        { jumpOptions env options m.vars with container := c, start := start } = .ok v ∧
      jump env target options m =
        { vars := (jumpDuration env options
            { v with distance := jsAdd env (jsSub env v.stop v.start) v.offset }).1
          pending := m.pending + 1
          log := m.log ++ (jumpDuration env options
            { v with distance := jsAdd env (jsSub env v.stop v.start) v.offset }).2
            ++ [Effect.requestFrame] } := by
  unfold jump at h ⊢
  dsimp only at h ⊢
  split at h
  · simp [uncaught] at h
  · rename_i c hc
    split at h
    · simp [uncaught] at h
    · rename_i start hs
      split at h
      · simp [uncaught] at h
      · rename_i v hv
        refine ⟨c, start, v, hc, hs, hv, ?_⟩
        simp only [hc, hs, hv]

theorem jumpDuration_fields (env : Env) (options : Options) (v : Vars) :
    (jumpDuration env options v).1 = { v with duration := (jumpDuration env options v).1.duration } := by
  unfold jumpDuration
  split
  · rfl
  · split <;> rfl

theorem truthy_jsOr_false (a : Value) : truthy (jsOr a (.bool false)) = truthy a := by
  unfold jsOr
  split_ifs with h
  · rfl
  · simp at h; rw [h]; rfl

theorem jumpTarget_number (env : Env) (target : Value) (v w : Vars)
    (ht : typeOf target = "number") (h : jumpTarget env target v = .ok w) :
    w = { v with element := .undefined, a11y := .bool false,
                 stop := if truthy v.exact then target else jsAdd env v.start target } := by
  unfold jumpTarget at h
  rw [if_pos ht] at h
  exact (Except.ok.inj h).symm

/-- C2: for a numeric target, a `jump` that resolves sets `stop` to the target
when the `exact` option is truthy (`true`) and to `start + target` when it is
falsy (`false` or absent), where `start` is the offset `jump` cached. -/
theorem C2_numeric_stop (env : Env) (target : Value) (options : Options) (m : Machine)
    (ht : typeOf target = "number")
    (hok : (jump env target options m).pending = m.pending + 1) :
    (jump env target options m).vars.stop =
      if truthy options.exact then target
      else jsAdd env (jump env target options m).vars.start target := by
  obtain ⟨c, start, v, _, _, hv, hj⟩ := jump_ok env target options m hok
  have hw := jumpTarget_number env target _ v ht hv
  rw [hj]
  dsimp only
  rw [jumpDuration_fields]
  subst hw
  simp [jumpOptions, truthy_jsOr_false]

/-- C2, at the scenario of the specification: target 200 with `exact` set, from
a window scrolled to 300, gives `stop = 200` and `distance = -100`; without
`exact` it gives `stop = 500`. -/
theorem C2_numeric_stop_witness :
    ((jump (exampleEnv 300) (.num 200) { Options.none with exact := .bool true }
        (Machine.idle Vars.init)).vars.stop =
      if truthy (Value.bool true) then Value.num 200
      else jsAdd (exampleEnv 300) (jump (exampleEnv 300) (.num 200)
        { Options.none with exact := .bool true } (Machine.idle Vars.init)).vars.start (.num 200)) ∧
    (jump (exampleEnv 300) (.num 200) { Options.none with exact := .bool true }
        (Machine.idle Vars.init)).vars.stop = .num 200 ∧
    (jump (exampleEnv 300) (.num 200) { Options.none with exact := .bool true }
        (Machine.idle Vars.init)).vars.distance = .num (-100) ∧
    (jump (exampleEnv 300) (.num 200) Options.none (Machine.idle Vars.init)).vars.stop
      = .num 500 :=
  ⟨C2_numeric_stop (exampleEnv 300) (.num 200) { Options.none with exact := .bool true }
    (Machine.idle Vars.init) (by decide) (by decide), by decide, by decide, by decide⟩

theorem jumpTarget_ok (env : Env) (target : Value) (v w : Vars)
    (h : jumpTarget env target v = .ok w) :
    ∃ e a s, w = { v with element := e, a11y := a, stop := s } := by
  unfold jumpTarget at h
  simp only [] at h
  split at h
  · cases h; exact ⟨_, _, _, rfl⟩
  · split at h
    · split at h
      · cases h; exact ⟨_, _, _, rfl⟩
      · cases h
    · split at h
      · split at h
        · cases h
        · split at h
          · cases h; exact ⟨_, _, _, rfl⟩
          · cases h
      · cases h; exact ⟨_, _, _, rfl⟩

theorem jumpTarget_offset (env : Env) (target : Value) (v w : Vars)
    (h : jumpTarget env target v = .ok w) : w.offset = v.offset ∧ w.start = v.start := by
  obtain ⟨e, a, s, hw⟩ := jumpTarget_ok env target v w h
  subst hw
  exact ⟨rfl, rfl⟩

/-- C3: in every run that `jump` resolves, whatever the target,
`distance = stop - start + offset`, where `offset` is the adjustment the
caller supplied (any number `n`) and is 0 when the option is absent. -/
theorem C3_distance (env : Env) (target : Value) (options : Options) (m : Machine)
    (hok : (jump env target options m).pending = m.pending + 1) :
    (jump env target options m).vars.distance =
        jsAdd env (jsSub env (jump env target options m).vars.stop
          (jump env target options m).vars.start) (jump env target options m).vars.offset ∧
      (∀ n : Int, options.offset = .num n → (jump env target options m).vars.offset = .num n) ∧
      (options.offset = .undefined → (jump env target options m).vars.offset = .num 0) := by
  obtain ⟨c, start, v, _, _, hv, hj⟩ := jump_ok env target options m hok
  obtain ⟨ho, _⟩ := jumpTarget_offset env target _ v hv
  rw [hj]
  dsimp only
  rw [jumpDuration_fields]
  dsimp only
  refine ⟨rfl, ?_, ?_⟩
  · intro n hn
    rw [ho]
    simp only [jumpOptions, hn, jsOr, truthy]
    by_cases h0 : n = 0 <;> simp [h0]
  · intro hn
    rw [ho]
    simp [jumpOptions, hn, jsOr, truthy]

/-- C3, at an element target 800 below the top of a window scrolled to 50,
with an offset of -20: `stop = 850` and `distance = 850 - 50 + (-20) = 780`. -/
theorem C3_distance_witness :
    ((jump (exampleEnv 50) (.str "#target") { Options.none with offset := .num (-20) }
        (Machine.idle Vars.init)).vars.distance =
        jsAdd (exampleEnv 50) (jsSub (exampleEnv 50)
          (jump (exampleEnv 50) (.str "#target") { Options.none with offset := .num (-20) }
            (Machine.idle Vars.init)).vars.stop
          (jump (exampleEnv 50) (.str "#target") { Options.none with offset := .num (-20) }
            (Machine.idle Vars.init)).vars.start)
          (jump (exampleEnv 50) (.str "#target") { Options.none with offset := .num (-20) }
            (Machine.idle Vars.init)).vars.offset) ∧
    (jump (exampleEnv 50) (.str "#target") { Options.none with offset := .num (-20) }
        (Machine.idle Vars.init)).vars.distance = .num 780 :=
  ⟨(C3_distance (exampleEnv 50) (.str "#target") { Options.none with offset := .num (-20) }
    (Machine.idle Vars.init) (by decide)).1, by decide⟩

/-- C4: at a window scrolled to 0 the chain of `||` in `location` finds `scrollY`
and `pageYOffset` falsy and answers the window's missing `scrollTop`, that is
`undefined`, not the number 0 (an element scrolled to 0 does answer 0); the
run of the specification's scenario then resolves `start = undefined`,
`stop = NaN` and `distance = NaN` instead of 0, 500 and 500. -/
theorem C4_location_at_zero :
    location { Vars.init with container := .node (exampleWindow 0) } (.str "y")
        = some .undefined ∧
      location { Vars.init with container := .node (exampleWindow 0) } (.str "x")
        = some .undefined ∧
      location { Vars.init with container := .node (exampleElement 1 0 0) } (.str "y")
        = some (.num 0) ∧
      location { Vars.init with container := .node (exampleWindow 300) } (.str "y")
        = some (.num 300) ∧
      (jump (exampleEnv 0) (.num 500) Options.none (Machine.idle Vars.init)).vars.start
        = .undefined ∧
      (jump (exampleEnv 0) (.num 500) Options.none (Machine.idle Vars.init)).vars.stop
        = .nan ∧
      (jump (exampleEnv 0) (.num 500) Options.none (Machine.idle Vars.init)).vars.distance
        = .nan := by
  decide

/-- C5: when the first frame's time is 0, `timeStart` is set to 0 on the first
tick, is falsy again on the second tick and is set anew there: with frames at
0 and 5 the second tick leaves `timeStart = 5` and `timeElapsed = 0`, not 0
and 5. -/
theorem C5_time_start_latched_twice :
    (frames (exampleEnv 300) [0]
        (jump (exampleEnv 300) (.num 200) Options.none (Machine.idle Vars.init))).vars.timeStart
        = .num 0 ∧
      (frames (exampleEnv 300) [0, 5]
        (jump (exampleEnv 300) (.num 200) Options.none (Machine.idle Vars.init))).vars.timeStart
        = .num 5 ∧
      (frames (exampleEnv 300) [0, 5]
        (jump (exampleEnv 300) (.num 200) Options.none (Machine.idle Vars.init))).vars.timeElapsed
        = .num 0 ∧
      (frames (exampleEnv 300) [0, 5]
        (jump (exampleEnv 300) (.num 200) Options.none (Machine.idle Vars.init))).pending
        = 1 := by
  decide

theorem jumpTarget_distance (env : Env) (target : Value) (v w : Vars)
    (h : jumpTarget env target v = .ok w) : w.duration = v.duration ∧ w.distance = v.distance := by
  obtain ⟨e, a, s, hw⟩ := jumpTarget_ok env target v w h
  subst hw
  exact ⟨rfl, rfl⟩

/-- C6: in a run that `jump` resolves, a `duration` option that is a number
(0 and `NaN` included) is the run's duration as it is, and nothing is called;
a `duration` option that is a function is called once, with the resolved
distance, and its result is the run's duration. -/
theorem C6_duration_number_or_function (env : Env) (target : Value) (options : Options)
    (m : Machine) (hok : (jump env target options m).pending = m.pending + 1) :
    (typeOf options.duration = "number" →
        (jump env target options m).vars.duration = options.duration ∧
        (jump env target options m).log = m.log ++ [Effect.requestFrame]) ∧
      (∀ f : Nat, options.duration = .func f →
        (jump env target options m).vars.duration
            = env.call f [(jump env target options m).vars.distance] ∧
        (jump env target options m).log = m.log ++
            [Effect.call f [(jump env target options m).vars.distance], Effect.requestFrame]) := by
  obtain ⟨c, start, v, _, _, hv, hj⟩ := jump_ok env target options m hok
  rw [hj]
  dsimp only
  constructor
  · intro hn
    simp [jumpDuration, hn]
  · intro f hf
    simp [jumpDuration, hf, typeOf]

/-- C6, at a duration of 0 and at a duration function doubling the distance. -/
theorem C6_duration_number_or_function_witness :
    (jump (exampleEnv 300) (.num 200) { Options.none with duration := .num 0 }
        (Machine.idle Vars.init)).vars.duration = .num 0 ∧
      (jump (exampleEnv 300) (.num 200) { Options.none with duration := .func 3 }
        (Machine.idle Vars.init)).vars.duration = .num 400 ∧
      (jump (exampleEnv 300) (.num 200) { Options.none with duration := .func 3 }
        (Machine.idle Vars.init)).log = [Effect.call 3 [.num 200], Effect.requestFrame] :=
  ⟨((C6_duration_number_or_function (exampleEnv 300) (.num 200)
      { Options.none with duration := .num 0 } (Machine.idle Vars.init) (by decide)).1
      (by decide)).1,
    by decide, by decide⟩

/-- C7 as stated fails: a `duration` option that is the string `"slow"`, neither
a number nor a function, is kept as the run's duration by a `jump` that
resolves; the duration is not 1000. -/
theorem C7_counterexample :
    typeOf (Value.str "slow") ≠ "number" ∧ typeOf (Value.str "slow") ≠ "function" ∧
      (jump (exampleEnv 300) (.num 200) { Options.none with duration := .str "slow" }
        (Machine.idle Vars.init)).pending = 1 ∧
      (jump (exampleEnv 300) (.num 200) { Options.none with duration := .str "slow" }
        (Machine.idle Vars.init)).vars.duration = .str "slow" ∧
      (jump (exampleEnv 300) (.num 200) { Options.none with duration := .str "slow" }
        (Machine.idle Vars.init)).vars.duration ≠ .num 1000 := by
  decide

/-- C7, amended: in a run that `jump` resolves, a `duration` option that is
neither a number nor a function gives the duration 1000 when it is falsy
(absent, `null`, `false`, the empty string) and is itself the run's duration
when it is truthy (a non-empty string, `true`, an object). -/
theorem C7_duration_other_types (env : Env) (target : Value) (options : Options)
    (m : Machine) (hok : (jump env target options m).pending = m.pending + 1)
    (hn : typeOf options.duration ≠ "number") (hf : typeOf options.duration ≠ "function") :
    (jump env target options m).vars.duration =
      if truthy options.duration then options.duration else .num 1000 := by
  obtain ⟨c, start, v, _, _, hv, hj⟩ := jump_ok env target options m hok
  obtain ⟨hd, _⟩ := jumpTarget_distance env target _ v hv
  rw [hj]
  dsimp only
  have hd2 : (jumpDuration env options
      { v with distance := jsAdd env (jsSub env v.stop v.start) v.offset }).1.duration
      = v.duration := by
    unfold jumpDuration
    rw [if_neg hn]
    split
    · rename_i f hfun; rw [hfun] at hf; exact absurd rfl hf
    · rfl
  rw [hd2, hd]
  rfl

/-- C7 amended, at an absent duration (1000) and at the duration `true`. -/
theorem C7_duration_other_types_witness :
    ((jump (exampleEnv 300) (.num 200) Options.none (Machine.idle Vars.init)).vars.duration =
        if truthy Options.none.duration then Options.none.duration else .num 1000) ∧
      (jump (exampleEnv 300) (.num 200) Options.none (Machine.idle Vars.init)).vars.duration
        = .num 1000 ∧
      (jump (exampleEnv 300) (.num 200) { Options.none with duration := .bool true }
        (Machine.idle Vars.init)).vars.duration = .bool true :=
  ⟨C7_duration_other_types (exampleEnv 300) (.num 200) Options.none (Machine.idle Vars.init)
    (by decide) (by decide) (by decide), by decide, by decide⟩

theorem elementOffset_graft (env : Env) (v : Vars) (e s d x y z el ax : Value) :
    elementOffset env (v.graft e s d x y z) el ax = elementOffset env v el ax := by
  simp [elementOffset, Vars.graft]

theorem jumpTarget_graft (env : Env) (target : Value) (v w : Vars) (e s d x y z : Value)
    (ht : typeOf target = "number" ∨ typeOf target = "object" ∨ typeOf target = "string")
    (h : jumpTarget env target v = .ok w) :
    jumpTarget env target (v.graft e s d x y z) = .ok (w.graft w.element w.stop d x y z) := by
  cases target with
  | undefined => simp [typeOf] at ht
  | bool b => simp [typeOf] at ht
  | func f => simp [typeOf] at ht
  | num n =>
    simp only [jumpTarget, typeOf, if_true, Except.ok.injEq] at h ⊢
    subst h; rfl
  | nan =>
    simp only [jumpTarget, typeOf, if_true, Except.ok.injEq] at h ⊢
    subst h; rfl
  | null =>
    simp [jumpTarget, typeOf, elementOffset, boundingRect] at h
  | node n =>
    revert h
    simp only [jumpTarget, typeOf, Vars.graft, elementOffset]
    simp only [show ("object" = "number") = False by decide, if_false, if_true]
    split
    · intro h; cases h; rfl
    · intro h; cases h
  | str t =>
    revert h
    simp only [jumpTarget, typeOf, Vars.graft, elementOffset]
    simp only [show ("string" = "number") = False by decide,
      show ("string" = "object") = False by decide, if_false]
    cases env.querySelector t with
    | none => intro h; cases h
    | some r =>
      dsimp only
      split
      · intro h; cases h; rfl
      · intro h; cases h

theorem jumpDuration_graft (env : Env) (options : Options) (v : Vars) (x y z : Value) :
    jumpDuration env options (v.graft v.element v.stop v.distance x y z) =
      (((jumpDuration env options v).1.graft v.element v.stop v.distance x y z),
        (jumpDuration env options v).2) := by
  unfold jumpDuration
  split
  · rfl
  · split <;> rfl

/-- What `jump` resolves does not depend on the variables it finds: from two
machines it succeeds or fails alike, and the variables it leaves differ only
in `timeStart`, `timeElapsed` and `next`, which it does not assign. -/
theorem jump_vars_of_prior (env : Env) (target : Value) (options : Options) (m1 m2 : Machine)
    (ht : typeOf target = "number" ∨ typeOf target = "object" ∨ typeOf target = "string")
    (h : (jump env target options m1).pending = m1.pending + 1) :
    (jump env target options m2).pending = m2.pending + 1 ∧
      (jump env target options m2).vars =
        { (jump env target options m1).vars with
          timeStart := m2.vars.timeStart
          timeElapsed := m2.vars.timeElapsed
          next := m2.vars.next } := by
  obtain ⟨c, start, v, hc, hs, hv, hj⟩ := jump_ok env target options m1 h
  have hloc : location { jumpOptions env options m2.vars with container := c }
      (jumpOptions env options m2.vars).axis = some start := by
    rw [← hs]; rfl
  have hgraft : ({ jumpOptions env options m2.vars with container := c, start := start } : Vars)
      = ({ jumpOptions env options m1.vars with container := c, start := start } : Vars).graft
          m2.vars.element m2.vars.stop m2.vars.distance
          m2.vars.timeStart m2.vars.timeElapsed m2.vars.next := rfl
  have ht2 := jumpTarget_graft env target _ v m2.vars.element m2.vars.stop m2.vars.distance
    m2.vars.timeStart m2.vars.timeElapsed m2.vars.next ht hv
  rw [← hgraft] at ht2
  rw [hj]
  unfold jump
  dsimp only
  rw [hc]
  dsimp only
  rw [hloc]
  dsimp only
  rw [ht2]
  dsimp only
  have hd := jumpDuration_graft env options
    { v with distance := jsAdd env (jsSub env v.stop v.start) v.offset }
    m2.vars.timeStart m2.vars.timeElapsed m2.vars.next
  constructor
  · trivial
  · have hfld := jumpDuration_fields env options
      { v with distance := jsAdd env (jsSub env v.stop v.start) v.offset }
    exact (congrArg Prod.fst hd).trans (by rw [hfld]; rfl)

theorem jump_time_fields (env : Env) (target : Value) (options : Options) (m : Machine)
    (h : (jump env target options m).pending = m.pending + 1) :
    (jump env target options m).vars.timeStart = m.vars.timeStart ∧
      (jump env target options m).vars.timeElapsed = m.vars.timeElapsed ∧
      (jump env target options m).vars.next = m.vars.next := by
  obtain ⟨c, start, v, _, _, hv, hj⟩ := jump_ok env target options m h
  obtain ⟨e, a, s, hw⟩ := jumpTarget_ok env target _ v hv
  rw [hj]
  dsimp only
  rw [jumpDuration_fields]
  subst hw
  exact ⟨rfl, rfl, rfl⟩

/-- C8 as stated fails: with a linear easing supplied by the caller, a first
invocation (target 100, callback 1) alone commits 300, 490, 400 and calls its
callback once; when a second invocation (target 200, callback 2) is made
before the first frame, the same frames commit only offsets computed from the
second invocation, callback 1 is never called and callback 2 is called
twice. -/
theorem C8_counterexample :
    commits (.str "y") (frames (exampleEnv 300) [1, 20, 40]
        (jump (exampleEnv 300) (.num 100)
          { Options.none with duration := .num 10, callback := .func 1, easing := .func 0 }
          (Machine.idle Vars.init))).log = [.num 300, .num 490, .num 400] ∧
      (frames (exampleEnv 300) [1, 20, 40]
        (jump (exampleEnv 300) (.num 100)
          { Options.none with duration := .num 10, callback := .func 1, easing := .func 0 }
          (Machine.idle Vars.init))).log.count (.call 1 []) = 1 ∧
      commits (.str "y") (frames (exampleEnv 300) [1, 20, 40]
        (jump (exampleEnv 300) (.num 200)
          { Options.none with duration := .num 10, callback := .func 2, easing := .func 0 }
          (jump (exampleEnv 300) (.num 100)
            { Options.none with duration := .num 10, callback := .func 1, easing := .func 0 }
            (Machine.idle Vars.init)))).log
        = [.num 300, .num 300, .num 680, .num 500, .num 300, .num 700, .num 500] ∧
      (frames (exampleEnv 300) [1, 20, 40]
        (jump (exampleEnv 300) (.num 200)
          { Options.none with duration := .num 10, callback := .func 2, easing := .func 0 }
          (jump (exampleEnv 300) (.num 100)
            { Options.none with duration := .num 10, callback := .func 1, easing := .func 0 }
            (Machine.idle Vars.init)))).log.count (.call 1 []) = 0 ∧
      (frames (exampleEnv 300) [1, 20, 40]
        (jump (exampleEnv 300) (.num 200)
          { Options.none with duration := .num 10, callback := .func 2, easing := .func 0 }
          (jump (exampleEnv 300) (.num 100)
            { Options.none with duration := .num 10, callback := .func 1, easing := .func 0 }
            (Machine.idle Vars.init)))).log.count (.call 2 []) = 2 := by
  decide

/-- C9: an invocation of `jump` (of a number, an object or a string) made once
the runs before it have completed, so that `timeStart` is `false` as `done`
leaves it, resolves the same run state whatever those runs left in the
variables: `element`, `start`, `stop`, `distance`, `duration`, `a11y` and
`timeStart` are the same from any two such states, and so is every other
resolved variable. -/
theorem C9_no_state_carried_over (env : Env) (target : Value) (options : Options)
    (m1 m2 : Machine)
    (ht : typeOf target = "number" ∨ typeOf target = "object" ∨ typeOf target = "string")
    (h1 : m1.vars.timeStart = .bool false) (h2 : m2.vars.timeStart = .bool false)
    (hok : (jump env target options m1).pending = m1.pending + 1) :
    (jump env target options m2).pending = m2.pending + 1 ∧
      (jump env target options m2).vars.element = (jump env target options m1).vars.element ∧
      (jump env target options m2).vars.start = (jump env target options m1).vars.start ∧
      (jump env target options m2).vars.stop = (jump env target options m1).vars.stop ∧
      (jump env target options m2).vars.distance = (jump env target options m1).vars.distance ∧
      (jump env target options m2).vars.duration = (jump env target options m1).vars.duration ∧
      (jump env target options m2).vars.a11y = (jump env target options m1).vars.a11y ∧
      (jump env target options m2).vars.timeStart = (jump env target options m1).vars.timeStart ∧
      (jump env target options m2).vars.resolved = (jump env target options m1).vars.resolved := by
  obtain ⟨hp, hv⟩ := jump_vars_of_prior env target options m1 m2 ht hok
  obtain ⟨a1, _, _⟩ := jump_time_fields env target options m1 hok
  refine ⟨hp, ?_, ?_, ?_, ?_, ?_, ?_, ?_, ?_⟩ <;> rw [hv]
  · dsimp only; rw [h2, a1, h1]
  · rfl

/-- C9, at an invocation of target 50 made after a completed run to an element
and after a completed run of target 200. -/
theorem C9_no_state_carried_over_witness :
    (jump (exampleEnv 300) (.num 50) Options.none
        (frames (exampleEnv 300) [10, 2000]
          (jump (exampleEnv 300) (.num 200) Options.none (Machine.idle Vars.init)))).vars.stop
      = (jump (exampleEnv 300) (.num 50) Options.none
        (frames (exampleEnv 300) [10, 2000]
          (jump (exampleEnv 300) (.str "#target") { Options.none with a11y := .bool true }
            (Machine.idle Vars.init)))).vars.stop :=
  (C9_no_state_carried_over (exampleEnv 300) (.num 50) Options.none
    (frames (exampleEnv 300) [10, 2000]
      (jump (exampleEnv 300) (.str "#target") { Options.none with a11y := .bool true }
        (Machine.idle Vars.init)))
    (frames (exampleEnv 300) [10, 2000]
      (jump (exampleEnv 300) (.num 200) Options.none (Machine.idle Vars.init)))
    (by decide) (by decide) (by decide) (by decide)).2.2.2.1

/-- C10: when `done` runs to its end with a callback supplied, what it adds to
the log is, in this order, the commit of `start + distance`, the focus
transfer (the element marked with `tabindex` -1, then focused) when
`element && a11y` is truthy and nothing otherwise, and last the call of the
callback. -/
theorem C10_callback_after_commit_and_focus (env : Env) (m : Machine) (f : Nat)
    (hcb : m.vars.callback = .func f) (hok : Effect.uncaught ∉ (done env m).log) :
    ∃ e fx, (done env m).log = m.log ++ [e] ++ fx ++ [Effect.call f []] ∧
      scrollTo m.vars (jsAdd env m.vars.start m.vars.distance) = some e ∧
      e.committed m.vars.axis = some (jsAdd env m.vars.start m.vars.distance) ∧
      Effect.call f [] ∉ fx ∧
      ((truthy m.vars.element && truthy m.vars.a11y) = true →
        ∃ el, m.vars.element = .node el ∧
          fx = [Effect.setAttribute el "tabindex" "-1", Effect.focus el]) ∧
      ((truthy m.vars.element && truthy m.vars.a11y) = false → fx = []) := by
  unfold done at hok ⊢
  dsimp only at hok ⊢
  split at hok
  · simp [uncaught] at hok
  · rename_i e he
    split at hok
    · simp [uncaught] at hok
    · rename_i fx hfx
      refine ⟨e, fx, ?_, he, scrollTo_committed _ _ _ he, ?_, ?_, ?_⟩
      · simp [he, hfx, hcb, callbackEffects]
      · unfold focusTransfer at hfx
        split_ifs at hfx
        · unfold focusEffects at hfx
          split at hfx
          · cases hfx; simp
          · cases hfx
        · cases hfx; simp
      · intro hta
        unfold focusTransfer at hfx
        rw [if_pos hta] at hfx
        unfold focusEffects at hfx
        split at hfx
        · rename_i el hel
          cases hfx
          exact ⟨el, hel, rfl⟩
        · cases hfx
      · intro hta
        unfold focusTransfer at hfx
        rw [hta] at hfx
        simpa using hfx.symm

/-- C10, at the last frame of a run to an element with `a11y` set and a
callback supplied. -/
theorem C10_callback_after_commit_and_focus_witness :
    ∃ e fx, (done (exampleEnv 50) (jump (exampleEnv 50) (.str "#target")
        { Options.none with a11y := .bool true, callback := .func 7 }
        (Machine.idle Vars.init))).log
        = (jump (exampleEnv 50) (.str "#target")
            { Options.none with a11y := .bool true, callback := .func 7 }
            (Machine.idle Vars.init)).log ++ [e] ++ fx ++ [Effect.call 7 []] ∧
      fx = [Effect.setAttribute (exampleElement 1 800 0) "tabindex" "-1",
        Effect.focus (exampleElement 1 800 0)] := by
  obtain ⟨e, fx, hlog, _, _, _, hfx, _⟩ := C10_callback_after_commit_and_focus (exampleEnv 50)
    (jump (exampleEnv 50) (.str "#target")
      { Options.none with a11y := .bool true, callback := .func 7 } (Machine.idle Vars.init))
    7 (by decide) (by decide)
  obtain ⟨el, hel, hfx2⟩ := hfx (by decide)
  have hel2 : el = exampleElement 1 800 0 := by
    have h3 : (jump (exampleEnv 50) (.str "#target")
      { Options.none with a11y := .bool true, callback := .func 7 }
      (Machine.idle Vars.init)).vars.element = .node (exampleElement 1 800 0) := by decide
    rw [h3] at hel
    exact (Value.node.inj hel).symm
  exact ⟨e, fx, hlog, by rw [hfx2, hel2]⟩

theorem jump_container_node (env : Env) (target : Value) (options : Options) (m : Machine)
    (h : (jump env target options m).pending = m.pending + 1) :
    ∃ c, (jump env target options m).vars.container = .node c := by
  obtain ⟨c, start, v, _, hs, hv, hj⟩ := jump_ok env target options m h
  obtain ⟨e, a, s, hw⟩ := jumpTarget_ok env target _ v hv
  rw [hj]
  dsimp only
  rw [jumpDuration_fields]
  subst hw
  dsimp only
  cases c with
  | node c' => exact ⟨c', rfl⟩
  | _ => simp [location] at hs

theorem elementOffset_eq (env : Env) (v : Vars) (el c : Node) (axis : Value) (top left : Int)
    (hc : v.container = .node c) (hr : el.rect = some (top, left)) :
    elementOffset env v (.node el) axis =
      some (jsAdd env (jsSub env (.num (positionAlong axis el.rect))
        (.num (positionAlong axis c.rect))) v.start) := by
  cases hcr : c.rect with
  | none =>
    by_cases ha : axis = .str "y" <;>
      simp [elementOffset, boundingRect, hc, hr, hcr, positionAlong, ha]
  | some p =>
    obtain ⟨ct, cl⟩ := p
    by_cases ha : axis = .str "y" <;>
      simp [elementOffset, boundingRect, hc, hr, hcr, positionAlong, ha]

theorem jumpTarget_element (env : Env) (target : Value) (v w : Vars) (el : Node)
    (ht : targetElement env target = some el) (h : jumpTarget env target v = .ok w) :
    ∃ s, elementOffset env { v with element := .node el } (.node el) v.axis = some s ∧
      w = { v with element := .node el, stop := s } := by
  cases target with
  | node n =>
    simp only [targetElement, Option.some.injEq] at ht
    subst ht
    revert h
    simp only [jumpTarget, typeOf]
    simp only [show ("object" = "number") = False by decide, if_false, if_true]
    split
    · rename_i s hs
      intro h; cases h
      exact ⟨s, hs, rfl⟩
    · intro h; cases h
  | str t =>
    revert h
    simp only [jumpTarget, typeOf]
    simp only [show ("string" = "number") = False by decide,
      show ("string" = "object") = False by decide, if_false]
    simp only [targetElement] at ht
    cases hq : env.querySelector t with
    | none => rw [hq] at ht; cases ht
    | some r =>
      rw [hq] at ht
      cases r with
      | none => cases ht
      | some n =>
        simp only [Option.some.injEq] at ht
        subst ht
        dsimp only
        split
        · rename_i s hs
          intro h; cases h
          exact ⟨s, hs, rfl⟩
        · intro h; cases h
  | undefined => cases ht
  | null => cases ht
  | bool b => cases ht
  | num n => cases ht
  | nan => cases ht
  | func f => cases ht

/-- C13: for an element target (an object, or a string that `querySelector`
resolves to one) a `jump` that resolves records the element and sets
`stop = (element's position) - (container's position) + start` along the
axis, `top` for `'y'` and `left` otherwise, the position of a container
without a bounding rectangle being 0. -/
theorem C13_element_stop (env : Env) (target : Value) (options : Options) (m : Machine)
    (el : Node) (ht : targetElement env target = some el)
    (hok : (jump env target options m).pending = m.pending + 1) :
    ∃ c, (jump env target options m).vars.container = .node c ∧
      (jump env target options m).vars.element = .node el ∧
      (jump env target options m).vars.stop =
        jsAdd env
          (jsSub env (.num (positionAlong (jump env target options m).vars.axis el.rect))
            (.num (positionAlong (jump env target options m).vars.axis c.rect)))
          (jump env target options m).vars.start := by
  obtain ⟨c, hc⟩ := jump_container_node env target options m hok
  refine ⟨c, hc, ?_⟩
  obtain ⟨c0, start, v, _, _, hv, hj⟩ := jump_ok env target options m hok
  obtain ⟨s, hs, hw⟩ := jumpTarget_element env target _ v el ht hv
  rw [hj] at hc ⊢
  dsimp only at hc ⊢
  rw [jumpDuration_fields] at hc ⊢
  subst hw
  dsimp only at hc ⊢
  refine ⟨rfl, ?_⟩
  have hrect : ∃ top left, el.rect = some (top, left) := by
    cases hr : el.rect with
    | none => simp [elementOffset, boundingRect, hr] at hs
    | some p => exact ⟨p.1, p.2, rfl⟩
  obtain ⟨top, left, hr⟩ := hrect
  rw [elementOffset_eq env _ el c _ top left hc hr] at hs
  exact (Option.some.inj hs).symm

/-- C13, at the scenario of the specification: the window as container, an
element whose top is at 800, the current offset 50: `stop = 800 - 0 + 50`. -/
theorem C13_element_stop_witness :
    (∃ c, (jump (exampleEnv 50) (.str "#target") Options.none
          (Machine.idle Vars.init)).vars.container = .node c ∧
      (jump (exampleEnv 50) (.str "#target") Options.none
          (Machine.idle Vars.init)).vars.element = .node (exampleElement 1 800 0) ∧
      (jump (exampleEnv 50) (.str "#target") Options.none (Machine.idle Vars.init)).vars.stop =
        jsAdd (exampleEnv 50)
          (jsSub (exampleEnv 50)
            (.num (positionAlong (jump (exampleEnv 50) (.str "#target") Options.none
              (Machine.idle Vars.init)).vars.axis (exampleElement 1 800 0).rect))
            (.num (positionAlong (jump (exampleEnv 50) (.str "#target") Options.none
              (Machine.idle Vars.init)).vars.axis c.rect)))
          (jump (exampleEnv 50) (.str "#target") Options.none
            (Machine.idle Vars.init)).vars.start) ∧
    (jump (exampleEnv 50) (.str "#target") Options.none (Machine.idle Vars.init)).vars.stop
      = .num 850 ∧
    (jump (exampleEnv 50) (.node (exampleElement 1 800 0)) Options.none
      (Machine.idle Vars.init)).vars.stop = .num 850 :=
  ⟨C13_element_stop (exampleEnv 50) (.str "#target") Options.none (Machine.idle Vars.init)
    (exampleElement 1 800 0) (by decide) (by decide), by decide, by decide⟩

/-- C15: `scrollTo(distance)` on a container that has a `scrollTo` method (the
window) calls it with the value on the axis in play and 0 on the other; on a
container without the method it assigns `scrollTop` (axis `'y'`) or
`scrollLeft` (any other axis) and nothing else, so that the other coordinate
of the surface stays as it was. -/
theorem C15_scrollTo_effect (v : Vars) (c : Node) (d : Value) (p : Value × Value)
    (hc : v.container = .node c) :
    (c.scrollTo = true → v.axis = .str "y" →
        scrollTo v d = some (.scrollToCall c (.num 0) d) ∧
        requestedPosition p (.scrollToCall c (.num 0) d) = (.num 0, d)) ∧
      (c.scrollTo = true → v.axis ≠ .str "y" →
        scrollTo v d = some (.scrollToCall c d (.num 0)) ∧
        requestedPosition p (.scrollToCall c d (.num 0)) = (d, .num 0)) ∧
      (c.scrollTo = false → v.axis = .str "y" →
        scrollTo v d = some (.setScrollTop c d) ∧
        requestedPosition p (.setScrollTop c d) = (p.1, d)) ∧
      (c.scrollTo = false → v.axis ≠ .str "y" →
        scrollTo v d = some (.setScrollLeft c d) ∧
        requestedPosition p (.setScrollLeft c d) = (d, p.2)) := by
  refine ⟨?_, ?_, ?_, ?_⟩ <;> intro hs ha <;> simp [scrollTo, hc, hs, ha, requestedPosition]

/-- C15, at the window and at an element, on the axis `'y'`. -/
theorem C15_scrollTo_effect_witness :
    scrollTo { Vars.init with container := .node (exampleWindow 300), axis := .str "y" } (.num 7)
        = some (.scrollToCall (exampleWindow 300) (.num 0) (.num 7)) ∧
      scrollTo { Vars.init with container := .node (exampleElement 1 0 40), axis := .str "y" }
        (.num 7) = some (.setScrollTop (exampleElement 1 0 40) (.num 7)) ∧
      requestedPosition (.num 3, .num 40) (.setScrollTop (exampleElement 1 0 40) (.num 7))
        = (.num 3, .num 7) :=
  ⟨((C15_scrollTo_effect
      { Vars.init with container := .node (exampleWindow 300), axis := .str "y" }
      (exampleWindow 300) (.num 7) (.num 3, .num 40) rfl).1 rfl rfl).1,
    ((C15_scrollTo_effect
      { Vars.init with container := .node (exampleElement 1 0 40), axis := .str "y" }
      (exampleElement 1 0 40) (.num 7) (.num 3, .num 40) rfl).2.2.1 rfl rfl).1,
    by decide⟩

theorem jumpContainer_eq (env : Env) (target : Value) (options : Options) (m : Machine)
    (h : (jump env target options m).pending = m.pending + 1) :
    jumpContainer env options = some (jump env target options m).vars.container := by
  obtain ⟨c, start, v, hc, _, hv, hj⟩ := jump_ok env target options m h
  obtain ⟨e, a, s, hw⟩ := jumpTarget_ok env target _ v hv
  rw [hj]
  dsimp only
  rw [jumpDuration_fields]
  subst hw
  exact hc

/-- C16 as stated fails: a `container` option that is `null`, neither an element
nor a string, is assigned to `container` (its `typeof` is `'object'`) and
`jump` throws when `location` reads its scroll position: no frame is
requested. -/
theorem C16_counterexample :
    (jump (exampleEnv 300) (.num 200) { Options.none with container := .null }
        (Machine.idle Vars.init)).vars.container = .null ∧
      (jump (exampleEnv 300) (.num 200) { Options.none with container := .null }
        (Machine.idle Vars.init)).pending = 0 ∧
      (jump (exampleEnv 300) (.num 200) { Options.none with container := .null }
        (Machine.idle Vars.init)).log = [Effect.uncaught] := by
  decide

/-- C16, amended: when the `container` option is absent or its `typeof` is
neither `'object'` nor `'string'` (a boolean, a number, a function), the
surface is the window and resolving it does not throw; when it is an element,
the surface is that element. -/
theorem C16_container_by_typeof (env : Env) (target : Value) (options : Options) (m : Machine)
    (hok : (jump env target options m).pending = m.pending + 1) :
    (typeOf options.container ≠ "object" → typeOf options.container ≠ "string" →
        jumpContainer env options = some (.node env.window) ∧
        (jump env target options m).vars.container = .node env.window) ∧
      (∀ n : Node, options.container = .node n →
        jumpContainer env options = some (.node n) ∧
        (jump env target options m).vars.container = .node n) := by
  have hc := jumpContainer_eq env target options m hok
  constructor
  · intro ho hs
    have h1 : jumpContainer env options = some (.node env.window) := by
      unfold jumpContainer
      rw [if_neg ho]
      split
      · rename_i s hstr; rw [hstr] at hs; exact absurd rfl hs
      · rfl
    rw [h1] at hc
    exact ⟨h1, (Option.some.inj hc).symm⟩
  · intro n hn
    have h1 : jumpContainer env options = some (.node n) := by
      unfold jumpContainer
      rw [hn]
      rfl
    rw [h1] at hc
    exact ⟨h1, (Option.some.inj hc).symm⟩

/-- C16 amended, at an absent container, at the container `true` and at an
element. -/
theorem C16_container_by_typeof_witness :
    (jump (exampleEnv 300) (.num 200) Options.none (Machine.idle Vars.init)).vars.container
        = .node (exampleEnv 300).window ∧
      (jump (exampleEnv 300) (.num 200) { Options.none with container := .bool true }
        (Machine.idle Vars.init)).vars.container = .node (exampleEnv 300).window ∧
      (jump (exampleEnv 300) (.num 200)
        { Options.none with container := .node (exampleElement 2 0 40) }
        (Machine.idle Vars.init)).vars.container = .node (exampleElement 2 0 40) :=
  ⟨((C16_container_by_typeof (exampleEnv 300) (.num 200) Options.none (Machine.idle Vars.init)
      (by decide)).1 (by decide) (by decide)).2,
    by decide,
    ((C16_container_by_typeof (exampleEnv 300) (.num 200)
      { Options.none with container := .node (exampleElement 2 0 40) } (Machine.idle Vars.init)
      (by decide)).2 (exampleElement 2 0 40) rfl).2⟩

theorem scrollTo_node (v : Vars) (c : Node) (d : Value) (hc : v.container = .node c) :
    scrollTo v d = some (commitEffect c v.axis d) := by
  unfold scrollTo commitEffect
  rw [hc]
  dsimp only
  split_ifs <;> rfl

theorem loopVars_resolved (env : Env) (t : Int) (v : Vars) (g : Nat) :
    (loopVars env t v g).resolved = v.resolved := by
  rw [← loopTime_resolved env t v]
  rfl

theorem loop_eq (env : Env) (t : Int) (m : Machine) (g : Nat) (c : Node)
    (hg : m.vars.easing = .func g) (hc : m.vars.container = .node c) :
    loop env t m =
      if jsLt env (loopVars env t m.vars g).timeElapsed (loopVars env t m.vars g).duration then
        { vars := loopVars env t m.vars g
          pending := m.pending + 1
          log := m.log ++ [Effect.call g (loopArgs env t m.vars),
            commitEffect c m.vars.axis (env.call g (loopArgs env t m.vars)),
            Effect.requestFrame] }
      else
        done env
          { vars := loopVars env t m.vars g
            pending := m.pending
            log := m.log ++ [Effect.call g (loopArgs env t m.vars),
              commitEffect c m.vars.axis (env.call g (loopArgs env t m.vars))] } := by
  obtain ⟨h1, h2, _, _, _, h6, _⟩ := resolved_fields _ _ (loopTime_resolved env t m.vars)
  have hcall : callValue env (loopTime env t m.vars).easing
      [(loopTime env t m.vars).timeElapsed, (loopTime env t m.vars).start,
        (loopTime env t m.vars).distance, (loopTime env t m.vars).duration]
      = some (Effect.call g (loopArgs env t m.vars), env.call g (loopArgs env t m.vars)) := by
    rw [h6, hg]; rfl
  have hscroll : scrollTo ({ loopTime env t m.vars with
      next := env.call g (loopArgs env t m.vars) } : Vars) (env.call g (loopArgs env t m.vars))
      = some (commitEffect c m.vars.axis (env.call g (loopArgs env t m.vars))) := by
    rw [scrollTo_node _ c _ (by show (loopTime env t m.vars).container = _; rw [h1, hc])]
    show some (commitEffect c (loopTime env t m.vars).axis _) = _
    rw [h2]
  unfold loop
  dsimp only
  rw [hcall]
  dsimp only
  rw [hscroll]
  rfl

theorem done_eq (env : Env) (m : Machine) (c : Node) (fx : List Effect)
    (hc : m.vars.container = .node c) (hf : focusTransfer m.vars = some fx) :
    done env m =
      { vars := { m.vars with timeStart := .bool false }
        pending := m.pending
        log := m.log ++ [commitEffect c m.vars.axis (jsAdd env m.vars.start m.vars.distance)]
          ++ fx ++ callbackEffects m.vars.callback } := by
  unfold done
  dsimp only
  rw [scrollTo_node _ c _ hc]
  dsimp only
  rw [hf]

theorem loop_failed_easing (env : Env) (t : Int) (m : Machine) (hp : m.pending = 0)
    (h : ∀ g, m.vars.easing ≠ .func g) : Failed (loop env t m) := by
  obtain ⟨_, _, _, _, _, h6, _⟩ := resolved_fields _ _ (loopTime_resolved env t m.vars)
  have hcall : callValue env (loopTime env t m.vars).easing
      [(loopTime env t m.vars).timeElapsed, (loopTime env t m.vars).start,
        (loopTime env t m.vars).distance, (loopTime env t m.vars).duration] = none := by
    rw [h6]
    unfold callValue
    split
    · rename_i g hg; exact absurd hg (h g)
    · rfl
  unfold loop
  dsimp only
  rw [hcall]
  simp [Failed, uncaught, hp]

theorem loop_failed_container (env : Env) (t : Int) (m : Machine) (hp : m.pending = 0)
    (h : ∀ c, m.vars.container ≠ .node c) : Failed (loop env t m) := by
  have hsc : ∀ (w : Vars) (d : Value), w.container = m.vars.container → scrollTo w d = none := by
    intro w d hw
    unfold scrollTo
    rw [hw]
    split
    · rename_i c hc; exact absurd hc (h c)
    · rfl
  obtain ⟨h1, _⟩ := resolved_fields _ _ (loopTime_resolved env t m.vars)
  unfold loop
  dsimp only
  split
  · simp [Failed, uncaught, hp]
  · rename_i cc nx _
    rw [hsc ({ loopTime env t m.vars with next := nx } : Vars) nx h1]
    simp [Failed, uncaught, hp]

theorem focusTransfer_congr (a b : Vars) (h : a.resolved = b.resolved) :
    focusTransfer a = focusTransfer b := by
  obtain ⟨_, _, _, _, _, _, h7, h8, _⟩ := resolved_fields a b h
  simp [focusTransfer, h7, h8]

theorem commitEffect_isTick (c : Node) (axis d : Value) : (commitEffect c axis d).isTick = true := by
  unfold commitEffect
  split_ifs <;> rfl

theorem loopArgs_length (env : Env) (t : Int) (v : Vars) : (loopArgs env t v).length = 4 := rfl

theorem tick_shape (env : Env) (r : Vars) (l0 : List Effect) (t : Int) (m : Machine)
    (h : RunningLog r l0 m) :
    (jsLt env (loopTime env t m.vars).timeElapsed m.vars.duration = true ∧
        RunningLog r l0 (frame env t m)) ∨
      Failed (frame env t m) ∨
      (jsLt env (loopTime env t m.vars).timeElapsed m.vars.duration = false ∧
        FinishedLog env r l0 (frame env t m)) := by
  obtain ⟨hp, hr, ticks, hlog, hticks⟩ := h
  rw [frame_one env t m hp]
  by_cases hg : ∃ g, m.vars.easing = .func g
  swap
  · right; left
    exact loop_failed_easing env t _ rfl (fun g hg2 => hg ⟨g, hg2⟩)
  obtain ⟨g, hg⟩ := hg
  by_cases hc : ∃ c, m.vars.container = .node c
  swap
  · right; left
    exact loop_failed_container env t _ rfl (fun c hc2 => hc ⟨c, hc2⟩)
  obtain ⟨c, hc⟩ := hc
  obtain ⟨h1, h2, h3, h4, _, _, _, _, h9⟩ := resolved_fields _ _ hr
  have hlv := loopVars_resolved env t m.vars g
  obtain ⟨k1, k2, k3, k4, k5, _, _, _, k9⟩ := resolved_fields _ _ hlv
  have hlt : jsLt env (loopVars env t m.vars g).timeElapsed (loopVars env t m.vars g).duration
      = jsLt env (loopTime env t m.vars).timeElapsed m.vars.duration := by
    rw [k5]; rfl
  rw [loop_eq env t { m with pending := 0 } g c hg hc]
  dsimp only
  rw [hlt]
  split
  · rename_i hjs
    left
    refine ⟨hjs, rfl, hlv.trans hr, ticks ++ [Effect.call g (loopArgs env t m.vars),
      commitEffect c m.vars.axis (env.call g (loopArgs env t m.vars)), Effect.requestFrame],
      by rw [hlog, List.append_assoc], ?_⟩
    intro e he
    rw [List.mem_append] at he
    rcases he with he | he
    · exact hticks e he
    · simp only [List.mem_cons, List.mem_singleton, List.not_mem_nil, or_false] at he
      rcases he with he | he | he
      · rw [he]; simp [Effect.isTick, loopArgs_length]
      · rw [he]; exact commitEffect_isTick _ _ _
      · rw [he]; rfl
  · rename_i hjs
    have hjs : jsLt env (loopTime env t m.vars).timeElapsed m.vars.duration = false := by
      simpa using hjs
    right
    cases hf : focusTransfer (loopVars env t m.vars g) with
    | none =>
      left
      unfold done
      dsimp only
      rw [scrollTo_node _ c _ (k1.trans hc)]
      dsimp only
      rw [hf]
      simp [Failed, uncaught]
    | some fx =>
      right
      rw [done_eq env _ c fx (k1.trans hc) hf]
      refine ⟨hjs, rfl, ?_, rfl, ticks ++ [Effect.call g (loopArgs env t m.vars),
        commitEffect c m.vars.axis (env.call g (loopArgs env t m.vars))], c, fx,
        h1.symm.trans hc, ?_, ?_, ?_⟩
      · rw [← hr, ← hlv]; rfl
      · rw [← focusTransfer_congr _ _ (hlv.trans hr)]; exact hf
      · intro e he
        rw [List.mem_append] at he
        rcases he with he | he
        · exact hticks e he
        · simp only [List.mem_cons, List.mem_singleton, List.not_mem_nil, or_false] at he
          rcases he with he | he
          · rw [he]; simp [Effect.isTick, loopArgs_length]
          · rw [he]; exact commitEffect_isTick _ _ _
      · dsimp only
        rw [hlog, k2, k3, k4, k9, h2, h3, h4, h9]
        simp only [List.append_assoc]

theorem frames_shape (env : Env) (r : Vars) (l0 : List Effect) (ts : List Int) (m : Machine)
    (h : RunningLog r l0 m ∨ Failed m ∨ FinishedLog env r l0 m) :
    RunningLog r l0 (frames env ts m) ∨ Failed (frames env ts m) ∨
      FinishedLog env r l0 (frames env ts m) := by
  induction ts generalizing m with
  | nil => exact h
  | cons t ts ih =>
    have hstep : frames env (t :: ts) m = frames env ts (frame env t m) := rfl
    rw [hstep]
    apply ih
    rcases h with h | h | h
    · rcases tick_shape env r l0 t m h with h2 | h2 | h2
      · exact Or.inl h2.2
      · exact Or.inr (Or.inl h2)
      · exact Or.inr (Or.inr h2.2)
    · rw [frame_idle env t m h.1]; exact Or.inr (Or.inl h)
    · rw [frame_idle env t m h.1]; exact Or.inr (Or.inr h)

theorem frames_append (env : Env) (a b : List Int) (m : Machine) :
    frames env (a ++ b) m = frames env b (frames env a m) := by
  simp [frames, List.foldl_append]

theorem frames_failed (env : Env) (ts : List Int) (m : Machine) (h : Failed m) :
    Failed (frames env ts m) := by
  rw [frames_idle env ts m h.1]; exact h

/-- A run that ends without an exception splits its frames in three: the ticks
that found `timeElapsed < duration` and requested a frame, the tick that did
not and went through `done`, and the frames after it, which find no callback
waiting. -/
theorem run_split (env : Env) (r : Vars) (l0 : List Effect) (ts : List Int) (m : Machine)
    (h : RunningLog r l0 m) (hdone : (frames env ts m).pending = 0)
    (hok : Effect.uncaught ∉ (frames env ts m).log) :
    ∃ pre t post, ts = pre ++ t :: post ∧
      (∀ p x q, pre = p ++ x :: q →
        jsLt env (loopTime env x (frames env p m).vars).timeElapsed
          (frames env p m).vars.duration = true ∧
        RunningLog r l0 (frames env (p ++ [x]) m)) ∧
      RunningLog r l0 (frames env pre m) ∧
      jsLt env (loopTime env t (frames env pre m).vars).timeElapsed
        (frames env pre m).vars.duration = false ∧
      FinishedLog env r l0 (frames env (pre ++ [t]) m) ∧
      frames env ts m = frames env (pre ++ [t]) m := by
  induction ts generalizing m with
  | nil =>
    have hp : m.pending = 1 := h.1
    have : m.pending = 0 := hdone
    omega
  | cons t ts ih =>
    have hstep : frames env (t :: ts) m = frames env ts (frame env t m) := rfl
    rw [hstep] at hdone hok
    rcases tick_shape env r l0 t m h with ⟨hlt, h2⟩ | h2 | ⟨hlt, h2⟩
    · obtain ⟨pre, t1, post, hts, hpre, hrun, hstop, hfin, heq⟩ := ih (frame env t m) h2 hdone hok
      refine ⟨t :: pre, t1, post, by rw [hts]; rfl, ?_, hrun, hstop, hfin, ?_⟩
      · intro p x q hpx
        cases p with
        | nil =>
          simp only [List.nil_append, List.cons.injEq] at hpx
          obtain ⟨hx, _⟩ := hpx
          subst hx
          exact ⟨hlt, h2⟩
        | cons y p =>
          simp only [List.cons_append, List.cons.injEq] at hpx
          obtain ⟨hy, hq⟩ := hpx
          subst hy
          exact hpre p x q hq
      · rw [hstep]; exact heq
    · exact absurd (frames_failed env ts _ h2).2 hok
    · refine ⟨[], t, ts, rfl, ?_, h, hlt, h2, ?_⟩
      · intro p x q hpx
        cases p <;> cases hpx
      · rw [hstep]
        exact frames_idle env ts _ h2.1

theorem jump_runningLog (env : Env) (target : Value) (options : Options) (v0 : Vars)
    (h : (jump env target options (Machine.idle v0)).pending = 1) :
    RunningLog (jump env target options (Machine.idle v0)).vars
      (jump env target options (Machine.idle v0)).log
      (jump env target options (Machine.idle v0)) :=
  ⟨h, rfl, [], by simp, by simp⟩

theorem completed_finishedLog (env : Env) (target : Value) (options : Options) (v0 : Vars)
    (ts : List Int)
    (hdone : (frames env ts (jump env target options (Machine.idle v0))).pending = 0)
    (hok : Effect.uncaught ∉ (frames env ts (jump env target options (Machine.idle v0))).log) :
    (jump env target options (Machine.idle v0)).pending = 1 ∧
      FinishedLog env (jump env target options (Machine.idle v0)).vars
        (jump env target options (Machine.idle v0)).log
        (frames env ts (jump env target options (Machine.idle v0))) := by
  rcases jump_cases env target options (Machine.idle v0) with ⟨hp, _⟩ | ⟨hp, hu⟩
  · have hp1 : (jump env target options (Machine.idle v0)).pending = 1 := by
      simpa [Machine.idle] using hp
    refine ⟨hp1, ?_⟩
    rcases frames_shape env _ _ ts _ (Or.inl (jump_runningLog env target options v0 hp1))
      with h | h | h
    · rw [h.1] at hdone; cases hdone
    · exact absurd h.2 hok
    · exact h
  · have hp0 : (jump env target options (Machine.idle v0)).pending = 0 := by
      simpa [Machine.idle] using hp
    rw [frames_idle env ts _ hp0] at hok
    exact absurd hu hok

theorem jump_log (env : Env) (target : Value) (options : Options) (v0 : Vars)
    (h : (jump env target options (Machine.idle v0)).pending = 1) :
    (jump env target options (Machine.idle v0)).log = [Effect.requestFrame] ∨
      ∃ f d, (jump env target options (Machine.idle v0)).log
        = [Effect.call f [d], Effect.requestFrame] := by
  obtain ⟨c, start, v, _, _, _, hj⟩ := jump_ok env target options (Machine.idle v0)
    (by simpa [Machine.idle] using h)
  rw [hj]
  dsimp only
  unfold jumpDuration
  split
  · left; simp [Machine.idle]
  · split
    · right; exact ⟨_, _, rfl⟩
    · left; simp [Machine.idle]

theorem isTick_not_isFocus (e : Effect) (h : e.isTick = true) : e.isFocus = false := by
  cases e <;> simp_all [Effect.isTick, Effect.isFocus]

theorem filter_isFocus_ticks (ticks : List Effect) (h : ∀ e ∈ ticks, e.isTick = true) :
    ticks.filter Effect.isFocus = [] := by
  rw [List.filter_eq_nil_iff]
  intro e he
  rw [isTick_not_isFocus e (h e he)]
  simp

theorem filter_isFocus_focusTransfer (v : Vars) (fx : List Effect)
    (h : focusTransfer v = some fx) : fx.filter Effect.isFocus = fx := by
  unfold focusTransfer at h
  split_ifs at h
  · unfold focusEffects at h
    split at h
    · cases h; rfl
    · cases h
  · cases h; rfl

theorem filter_isFocus_callbackEffects (cb : Value) :
    (callbackEffects cb).filter Effect.isFocus = [] := by
  cases cb <;> rfl

theorem filter_isFocus_commitEffect (c : Node) (axis d : Value) :
    [commitEffect c axis d].filter Effect.isFocus = [] := by
  unfold commitEffect
  split_ifs <;> rfl

theorem jumpTarget_cases (env : Env) (target : Value) (v w : Vars)
    (ht : typeOf target = "number" ∨ typeOf target = "object" ∨ typeOf target = "string")
    (h : jumpTarget env target v = .ok w) :
    (typeOf target = "number" ∧ targetElement env target = none) ∨
      ∃ el, targetElement env target = some el := by
  cases target with
  | undefined => simp [typeOf] at ht
  | bool b => simp [typeOf] at ht
  | func f => simp [typeOf] at ht
  | num n => left; exact ⟨rfl, rfl⟩
  | nan => left; exact ⟨rfl, rfl⟩
  | null => simp [jumpTarget, typeOf, elementOffset, boundingRect] at h
  | node n => right; exact ⟨n, rfl⟩
  | str t =>
    right
    revert h
    simp only [jumpTarget, typeOf]
    simp only [show ("string" = "number") = False by decide,
      show ("string" = "object") = False by decide, if_false]
    cases hq : env.querySelector t with
    | none => intro h; cases h
    | some r =>
      cases r with
      | none => simp [elementOffset, boundingRect]
      | some n => intro _; exact ⟨n, by simp [targetElement, hq]⟩

theorem jump_focusTransfer (env : Env) (target : Value) (options : Options) (m : Machine)
    (ht : typeOf target = "number" ∨ typeOf target = "object" ∨ typeOf target = "string")
    (hok : (jump env target options m).pending = m.pending + 1) :
    focusTransfer (jump env target options m).vars = some (expectedFocus env target options) := by
  obtain ⟨c, start, v, _, _, hv, hj⟩ := jump_ok env target options m hok
  rcases jumpTarget_cases env target _ v ht hv with ⟨hn, hnone⟩ | ⟨el, hel⟩
  · have hw := jumpTarget_number env target _ v hn hv
    rw [hj]
    dsimp only
    rw [jumpDuration_fields]
    subst hw
    simp [focusTransfer, expectedFocus, hnone, truthy]
  · obtain ⟨s, _, hw⟩ := jumpTarget_element env target _ v el hel hv
    rw [hj]
    dsimp only
    rw [jumpDuration_fields]
    subst hw
    have hn : truthy (Value.node el) = true := rfl
    by_cases ha : truthy options.a11y = true
    · simp [focusTransfer, expectedFocus, hel, jumpOptions, truthy_jsOr_false, focusEffects,
        hn, ha]
    · simp [focusTransfer, expectedFocus, hel, jumpOptions, truthy_jsOr_false, focusEffects,
        hn, ha]

/-- C11: in a run that completes, of a number, an object or a string target,
the focus effects of the log are exactly the target element marked with
`tabindex` -1 and then focused when the target is an element (or a string
resolved to one) and the `a11y` option is truthy, and none otherwise; for a
numeric target `jump` sets `a11y` to `false` and `element` to `undefined`,
whatever the option, and there is no focus effect. -/
theorem C11_focus_transfer (env : Env) (target : Value) (options : Options) (v0 : Vars)
    (ts : List Int)
    (ht : typeOf target = "number" ∨ typeOf target = "object" ∨ typeOf target = "string")
    (hdone : (frames env ts (jump env target options (Machine.idle v0))).pending = 0)
    (hok : Effect.uncaught ∉ (frames env ts (jump env target options (Machine.idle v0))).log) :
    (frames env ts (jump env target options (Machine.idle v0))).log.filter Effect.isFocus
        = expectedFocus env target options ∧
      (typeOf target = "number" →
        (jump env target options (Machine.idle v0)).vars.a11y = .bool false ∧
        (jump env target options (Machine.idle v0)).vars.element = .undefined ∧
        (frames env ts (jump env target options (Machine.idle v0))).log.filter Effect.isFocus
          = []) := by
  obtain ⟨hp, _, _, _, ticks, c, fx, _, hfx, hticks, hlog⟩ :=
    completed_finishedLog env target options v0 ts hdone hok
  have hp' : (jump env target options (Machine.idle v0)).pending = (Machine.idle v0).pending + 1 := by
    simpa [Machine.idle] using hp
  have hfx2 := jump_focusTransfer env target options (Machine.idle v0) ht hp'
  rw [hfx] at hfx2
  have hfx3 : fx = expectedFocus env target options := Option.some.inj hfx2
  have hl0 : (jump env target options (Machine.idle v0)).log.filter Effect.isFocus = [] := by
    rcases jump_log env target options v0 hp with h | ⟨f, d, h⟩ <;> rw [h] <;> rfl
  have hmain : (frames env ts (jump env target options (Machine.idle v0))).log.filter
      Effect.isFocus = expectedFocus env target options := by
    rw [hlog]
    simp only [List.filter_append, hl0, filter_isFocus_ticks ticks hticks,
      filter_isFocus_commitEffect, filter_isFocus_callbackEffects,
      filter_isFocus_focusTransfer _ fx hfx, List.nil_append, List.append_nil]
    exact hfx3
  refine ⟨hmain, ?_⟩
  intro hn
  obtain ⟨c0, start, v, _, _, hv, hj⟩ := jump_ok env target options (Machine.idle v0) hp'
  have hw := jumpTarget_number env target _ v hn hv
  refine ⟨?_, ?_, ?_⟩
  · rw [hj]; dsimp only; rw [jumpDuration_fields]; subst hw; rfl
  · rw [hj]; dsimp only; rw [jumpDuration_fields]; subst hw; rfl
  · rw [hmain]
    cases target <;> simp [typeOf] at hn <;> rfl

/-- C11, at a completed run to an element with `a11y` set, and at a completed
run of the number 200 with `a11y` set. -/
theorem C11_focus_transfer_witness :
    (frames (exampleEnv 50) [10, 2000]
        (jump (exampleEnv 50) (.str "#target") { Options.none with a11y := .bool true }
          (Machine.idle Vars.init))).log.filter Effect.isFocus
        = [.setAttribute (exampleElement 1 800 0) "tabindex" "-1",
            .focus (exampleElement 1 800 0)] ∧
      (frames (exampleEnv 50) [10, 2000]
        (jump (exampleEnv 50) (.num 200) { Options.none with a11y := .bool true }
          (Machine.idle Vars.init))).log.filter Effect.isFocus = [] :=
  ⟨(C11_focus_transfer (exampleEnv 50) (.str "#target") { Options.none with a11y := .bool true }
      Vars.init [10, 2000] (by decide) (by decide) (by decide)).1.trans (by decide),
    ((C11_focus_transfer (exampleEnv 50) (.num 200) { Options.none with a11y := .bool true }
      Vars.init [10, 2000] (by decide) (by decide) (by decide)).2 (by decide)).2.2⟩

theorem count_callback_ticks (f : Nat) (ticks : List Effect)
    (h : ∀ e ∈ ticks, e.isTick = true) : ticks.count (Effect.call f []) = 0 := by
  rw [List.count_eq_zero]
  intro hmem
  have := h _ hmem
  simp [Effect.isTick] at this

theorem count_callback_commitEffect (f : Nat) (c : Node) (axis d : Value) :
    [commitEffect c axis d].count (Effect.call f []) = 0 := by
  rw [List.count_eq_zero]
  intro hmem
  have h1 := commitEffect_isTick c axis d
  rw [← List.mem_singleton.mp hmem] at h1
  simp [Effect.isTick] at h1

theorem count_callback_focusTransfer (f : Nat) (v : Vars) (fx : List Effect)
    (h : focusTransfer v = some fx) : fx.count (Effect.call f []) = 0 := by
  rw [List.count_eq_zero]
  intro hmem
  have h1 := filter_isFocus_focusTransfer v fx h
  rw [← h1, List.mem_filter] at hmem
  simp [Effect.isFocus] at hmem

theorem count_callback_jump_log (env : Env) (target : Value) (options : Options) (v0 : Vars)
    (f : Nat) (h : (jump env target options (Machine.idle v0)).pending = 1) :
    (jump env target options (Machine.idle v0)).log.count (Effect.call f []) = 0 := by
  rcases jump_log env target options v0 h with h1 | ⟨g, d, h1⟩ <;> rw [h1] <;>
    simp [List.count_cons]

theorem jump_callback (env : Env) (target : Value) (options : Options) (m : Machine)
    (hok : (jump env target options m).pending = m.pending + 1) :
    (jump env target options m).vars.callback = options.callback := by
  obtain ⟨c, start, v, _, _, hv, hj⟩ := jump_ok env target options m hok
  obtain ⟨e, a, s, hw⟩ := jumpTarget_ok env target _ v hv
  rw [hj]
  dsimp only
  rw [jumpDuration_fields]
  subst hw
  rfl

theorem count_callback_running (r : Vars) (l0 : List Effect) (m : Machine) (f : Nat)
    (h0 : l0.count (Effect.call f []) = 0) (h : RunningLog r l0 m) :
    m.log.count (Effect.call f []) = 0 := by
  obtain ⟨_, _, ticks, hlog, hticks⟩ := h
  rw [hlog, List.count_append, h0, count_callback_ticks f ticks hticks]

theorem count_callback_finished (env : Env) (r : Vars) (l0 : List Effect) (m : Machine)
    (f : Nat) (h0 : l0.count (Effect.call f []) = 0) (hcb : r.callback = .func f)
    (h : FinishedLog env r l0 m) : m.log.count (Effect.call f []) = 1 := by
  obtain ⟨_, _, _, ticks, c, fx, _, hfx, hticks, hlog⟩ := h
  rw [hlog]
  simp only [List.count_append, h0, count_callback_ticks f ticks hticks,
    count_callback_commitEffect, count_callback_focusTransfer f r fx hfx, hcb, callbackEffects]
  simp

/-- C12: a run that completes splits its frames in the ticks `pre`, the tick
`t` and the frames `post`. Every tick of `pre` found `timeElapsed < duration`
and requested another frame (one callback waits after it, the callback of
the caller has not been called); the tick `t` is the first that found
`timeElapsed < duration` false, and it went through `done`: no callback
waits after it and the caller's callback has been called once; the frames
`post` change nothing. So `done` runs once and the callback is called
exactly once. -/
theorem C12_one_completion (env : Env) (target : Value) (options : Options) (v0 : Vars)
    (ts : List Int) (f : Nat) (hcb : options.callback = .func f)
    (hdone : (frames env ts (jump env target options (Machine.idle v0))).pending = 0)
    (hok : Effect.uncaught ∉ (frames env ts (jump env target options (Machine.idle v0))).log) :
    (∃ pre t post, ts = pre ++ t :: post ∧
      (∀ p x q, pre = p ++ x :: q →
        jsLt env
          (loopTime env x (frames env p (jump env target options (Machine.idle v0))).vars).timeElapsed
          (frames env p (jump env target options (Machine.idle v0))).vars.duration = true ∧
        (frames env (p ++ [x]) (jump env target options (Machine.idle v0))).pending = 1 ∧
        (frames env (p ++ [x]) (jump env target options (Machine.idle v0))).log.count
          (Effect.call f []) = 0) ∧
      jsLt env
        (loopTime env t (frames env pre (jump env target options (Machine.idle v0))).vars).timeElapsed
        (frames env pre (jump env target options (Machine.idle v0))).vars.duration = false ∧
      (frames env pre (jump env target options (Machine.idle v0))).pending = 1 ∧
      (frames env pre (jump env target options (Machine.idle v0))).log.count
        (Effect.call f []) = 0 ∧
      (frames env (pre ++ [t]) (jump env target options (Machine.idle v0))).pending = 0 ∧
      (frames env (pre ++ [t]) (jump env target options (Machine.idle v0))).log.count
        (Effect.call f []) = 1 ∧
      frames env ts (jump env target options (Machine.idle v0))
        = frames env (pre ++ [t]) (jump env target options (Machine.idle v0))) ∧
    (frames env ts (jump env target options (Machine.idle v0))).log.count (Effect.call f []) = 1 := by
  obtain ⟨hp, hfin⟩ := completed_finishedLog env target options v0 ts hdone hok
  have hp' : (jump env target options (Machine.idle v0)).pending = (Machine.idle v0).pending + 1 := by
    simpa [Machine.idle] using hp
  have h0 := count_callback_jump_log env target options v0 f hp
  have hc : (jump env target options (Machine.idle v0)).vars.callback = .func f := by
    rw [jump_callback env target options _ hp', hcb]
  obtain ⟨pre, t, post, hts, hpre, hrun, hstop, hend, heq⟩ :=
    run_split env _ _ ts _ (jump_runningLog env target options v0 hp) hdone hok
  refine ⟨⟨pre, t, post, hts, ?_, hstop, hrun.1, count_callback_running _ _ _ f h0 hrun,
    hend.1, count_callback_finished env _ _ _ f h0 hc hend, heq⟩,
    count_callback_finished env _ _ _ f h0 hc hfin⟩
  intro p x q hpx
  obtain ⟨h1, h2⟩ := hpre p x q hpx
  exact ⟨h1, h2.1, count_callback_running _ _ _ f h0 h2⟩

/-- C12, at a run of three frames with a callback: the third tick is the first
with `timeElapsed < duration` false, and the callback is called once. -/
theorem C12_one_completion_witness :
    (frames (exampleEnv 300) [10, 500, 1010, 1020]
      (jump (exampleEnv 300) (.num 200) { Options.none with callback := .func 7 }
        (Machine.idle Vars.init))).log.count (Effect.call 7 []) = 1 :=
  (C12_one_completion (exampleEnv 300) (.num 200) { Options.none with callback := .func 7 }
    Vars.init [10, 500, 1010, 1020] 7 rfl (by decide) (by decide)).2

theorem jsSub_num (env : Env) (a b : Int) : jsSub env (.num a) (.num b) = .num (a - b) := rfl

theorem jsLt_num (env : Env) (a b : Int) : jsLt env (.num a) (.num b) = decide (a < b) := rfl

theorem loopTime_latched (env : Env) (t s : Int) (v : Vars)
    (h : (v.timeStart = .num s ∧ s ≠ 0) ∨ (truthy v.timeStart = false ∧ t = s)) :
    (loopTime env t v).timeStart = .num s ∧ (loopTime env t v).timeElapsed = .num (t - s) := by
  unfold loopTime
  rcases h with ⟨h, hs⟩ | ⟨h, hts⟩
  · have ht : truthy (Value.num s) = true := by simp [truthy, hs]
    simp only [h, ht, Bool.not_true, Bool.false_eq_true, if_false, jsSub_num, and_self]
  · subst hts
    simp [h, jsSub_num]

theorem commits_commitEffect (c : Node) (axis d : Value) :
    commits axis [commitEffect c axis d] = [d] := by
  unfold commitEffect commits
  split_ifs with h1 h2 h3 <;> simp [Effect.committed, h1]

theorem committed_commitEffect (c : Node) (axis d : Value) :
    (commitEffect c axis d).committed axis = some d := by
  unfold commitEffect
  split_ifs with h1 h2 h3 <;> simp [Effect.committed, h1]

theorem commits_call (axis : Value) (g : Nat) (args : List Value) :
    commits axis [Effect.call g args] = [] := rfl

theorem commits_requestFrame (axis : Value) : commits axis [Effect.requestFrame] = [] := rfl

theorem commits_done (env : Env) (m : Machine) (c : Node) (hc : m.vars.container = .node c) :
    commits m.vars.axis (done env m).log
      = commits m.vars.axis m.log ++ [jsAdd env m.vars.start m.vars.distance] := by
  cases hf : focusTransfer m.vars with
  | none =>
    unfold done
    dsimp only
    rw [scrollTo_node _ c _ hc]
    dsimp only
    rw [hf]
    simp only [uncaught, commits_append, commits_commitEffect]
    simp [commits, Effect.committed]
  | some fx =>
    rw [done_eq env m c fx hc hf]
    simp only [commits_append, commits_commitEffect, commits_focusTransfer _ _ _ hf,
      commits_callbackEffects, List.append_nil]

theorem tick_latched (env : Env) (r : Vars) (g : Nat) (c : Node) (d s t : Int) (m : Machine)
    (hg : r.easing = .func g) (hc : r.container = .node c)
    (hd : r.duration = .num d) (hp : m.pending = 1) (hr : m.vars.resolved = r.resolved)
    (hl : (m.vars.timeStart = .num s ∧ s ≠ 0) ∨ (truthy m.vars.timeStart = false ∧ t = s)) :
    frame env t m =
      (if t - s < d then
        { vars := loopVars env t m.vars g
          pending := 1
          log := m.log ++ [Effect.call g [.num (t - s), r.start, r.distance, .num d],
            commitEffect c r.axis (env.call g [.num (t - s), r.start, r.distance, .num d]),
            Effect.requestFrame] }
      else
        done env
          { vars := loopVars env t m.vars g
            pending := 0
            log := m.log ++ [Effect.call g [.num (t - s), r.start, r.distance, .num d],
              commitEffect c r.axis
                (env.call g [.num (t - s), r.start, r.distance, .num d])] }) ∧
      (loopVars env t m.vars g).timeStart = .num s ∧
      (loopVars env t m.vars g).resolved = r.resolved := by
  obtain ⟨h1, h2, h3, h4, h5, h6, _⟩ := resolved_fields _ _ hr
  obtain ⟨k1, k2, k3, k4, k5, _⟩ := resolved_fields _ _ (loopTime_resolved env t m.vars)
  obtain ⟨l1, l2⟩ := loopTime_latched env t s m.vars hl
  have hargs : loopArgs env t m.vars = [.num (t - s), r.start, r.distance, .num d] := by
    unfold loopArgs
    rw [l2, k3, k4, k5, h3, h4, h5, hd]
  have hlt : jsLt env (loopVars env t m.vars g).timeElapsed (loopVars env t m.vars g).duration
      = decide (t - s < d) := by
    show jsLt env (loopTime env t m.vars).timeElapsed (loopTime env t m.vars).duration = _
    rw [l2, k5, h5, hd, jsLt_num]
  refine ⟨?_, l1, (loopVars_resolved env t m.vars g).trans hr⟩
  rw [frame_one env t m hp, loop_eq env t { m with pending := 0 } g c (h6.trans hg) (h1.trans hc)]
  dsimp only
  rw [hlt, hargs, h2]
  by_cases hlt2 : t - s < d <;> simp [hlt2]

theorem commits_run (env : Env) (r : Vars) (g : Nat) (c : Node) (d s tn : Int)
    (hs : s ≠ 0) (hg : r.easing = .func g) (hc : r.container = .node c)
    (hd : r.duration = .num d) (hlast : d ≤ tn - s) (pre : List Int) (m : Machine)
    (hp : m.pending = 1) (hr : m.vars.resolved = r.resolved)
    (hl : m.vars.timeStart = .num s ∨
      (truthy m.vars.timeStart = false ∧ (pre ++ [tn]).head? = some s))
    (hpre : ∀ t ∈ pre, t - s < d) :
    commits r.axis (frames env (pre ++ [tn]) m).log =
      commits r.axis m.log ++
        (pre ++ [tn]).map (fun t => env.call g [.num (t - s), r.start, r.distance, .num d]) ++
        [jsAdd env r.start r.distance] := by
  induction pre generalizing m with
  | nil =>
    have hl2 : (m.vars.timeStart = .num s ∧ s ≠ 0) ∨
        (truthy m.vars.timeStart = false ∧ tn = s) := by
      rcases hl with h | ⟨h, hh⟩
      · exact Or.inl ⟨h, hs⟩
      · exact Or.inr ⟨h, by simpa using hh⟩
    obtain ⟨hf, _, hres⟩ := tick_latched env r g c d s tn m hg hc hd hp hr hl2
    obtain ⟨k1, k2, k3, k4, _⟩ := resolved_fields _ _ hres
    have hstep : frames env ([] ++ [tn]) m = frame env tn m := rfl
    rw [hstep, hf, if_neg (by omega)]
    have hcd := commits_done env
      { vars := loopVars env tn m.vars g, pending := 0,
        log := m.log ++ [Effect.call g [.num (tn - s), r.start, r.distance, .num d],
          commitEffect c r.axis (env.call g [.num (tn - s), r.start, r.distance, .num d])] }
      c (k1.trans hc)
    dsimp only at hcd
    rw [k2, k3, k4] at hcd
    rw [hcd]
    simp only [commits_append, List.nil_append, List.map_cons, List.map_nil]
    have h2 : commits r.axis [Effect.call g [.num (tn - s), r.start, r.distance, .num d],
        commitEffect c r.axis (env.call g [.num (tn - s), r.start, r.distance, .num d])]
        = [env.call g [.num (tn - s), r.start, r.distance, .num d]] := by
      show commits r.axis ([Effect.call g [.num (tn - s), r.start, r.distance, .num d]] ++
        [commitEffect c r.axis (env.call g [.num (tn - s), r.start, r.distance, .num d])]) = _
      rw [commits_append, commits_call, commits_commitEffect]
      rfl
    rw [h2]
  | cons t pre ih =>
    have hl2 : (m.vars.timeStart = .num s ∧ s ≠ 0) ∨
        (truthy m.vars.timeStart = false ∧ t = s) := by
      rcases hl with h | ⟨h, hh⟩
      · exact Or.inl ⟨h, hs⟩
      · exact Or.inr ⟨h, by simpa using hh⟩
    obtain ⟨hf, hts, hres⟩ := tick_latched env r g c d s t m hg hc hd hp hr hl2
    have hstep : frames env ((t :: pre) ++ [tn]) m = frames env (pre ++ [tn]) (frame env t m) := rfl
    rw [hstep, hf, if_pos (hpre t (List.mem_cons_self _ _))]
    rw [ih _ rfl hres (Or.inl hts) (fun x hx => hpre x (List.mem_cons_of_mem _ hx))]
    dsimp only
    have h3 : commits r.axis [Effect.call g [.num (t - s), r.start, r.distance, .num d],
        commitEffect c r.axis (env.call g [.num (t - s), r.start, r.distance, .num d]),
        Effect.requestFrame]
        = [env.call g [.num (t - s), r.start, r.distance, .num d]] := by
      show commits r.axis ([Effect.call g [.num (t - s), r.start, r.distance, .num d]] ++
        ([commitEffect c r.axis (env.call g [.num (t - s), r.start, r.distance, .num d])] ++
          [Effect.requestFrame])) = _
      rw [commits_append, commits_call, commits_append, commits_commitEffect,
        commits_requestFrame]
      rfl
    rw [commits_append, h3]
    simp

theorem loop_env (env : Env) (w : Node) (q : String → Option (Option Node)) (t : Int)
    (m : Machine) :
    loop { env with window := w, querySelector := q } t m = loop env t m := rfl

theorem frames_env (env : Env) (w : Node) (q : String → Option (Option Node)) (ts : List Int)
    (m : Machine) :
    frames { env with window := w, querySelector := q } ts m = frames env ts m := by
  induction ts generalizing m with
  | nil => rfl
  | cons t ts ih =>
    have h1 : frames { env with window := w, querySelector := q } (t :: ts) m
        = frames { env with window := w, querySelector := q } ts
            (frame { env with window := w, querySelector := q } t m) := rfl
    have h2 : frame { env with window := w, querySelector := q } t m = frame env t m := by
      unfold frame
      have hl : loop { env with window := w, querySelector := q } t = loop env t :=
        funext (loop_env env w q t)
      rw [hl]
    rw [h1, h2, ih]
    rfl

theorem commits_jump_log (env : Env) (target : Value) (options : Options) (v0 : Vars)
    (axis : Value) (h : (jump env target options (Machine.idle v0)).pending = 1) :
    commits axis (jump env target options (Machine.idle v0)).log = [] := by
  rcases jump_log env target options v0 h with h1 | ⟨f, d, h1⟩ <;> rw [h1] <;> rfl

/-- C17: a run resolved from unset `timeStart`, with an easing function `g` and
a numeric duration `d`, over the frames `t0, ..., tn` with `t0` nonzero, where
`tn` is the first with `tn - t0 >= d`, commits exactly
`g(t0 - t0, start, distance, d), ..., g(tn - t0, start, distance, d)` and then
`start + distance`; the first commit is `g(0, start, distance, d)`, and the
frames give the same machine whatever the window and the document are by
then. -/
theorem C17_committed_sequence (env : Env) (target : Value) (options : Options) (v0 : Vars)
    (g : Nat) (d t0 tn : Int) (pre : List Int)
    (hv0 : truthy v0.timeStart = false)
    (hok : (jump env target options (Machine.idle v0)).pending = 1)
    (hg : (jump env target options (Machine.idle v0)).vars.easing = .func g)
    (hd : (jump env target options (Machine.idle v0)).vars.duration = .num d)
    (ht0 : t0 ≠ 0) (hhead : (pre ++ [tn]).head? = some t0)
    (hpre : ∀ t ∈ pre, t - t0 < d) (hlast : d ≤ tn - t0) :
    commits (jump env target options (Machine.idle v0)).vars.axis
        (frames env (pre ++ [tn]) (jump env target options (Machine.idle v0))).log
      = (pre ++ [tn]).map (fun t => env.call g [.num (t - t0),
            (jump env target options (Machine.idle v0)).vars.start,
            (jump env target options (Machine.idle v0)).vars.distance, .num d])
          ++ [jsAdd env (jump env target options (Machine.idle v0)).vars.start
            (jump env target options (Machine.idle v0)).vars.distance] ∧
      (commits (jump env target options (Machine.idle v0)).vars.axis
        (frames env (pre ++ [tn]) (jump env target options (Machine.idle v0))).log).head?
      = some (env.call g [.num 0,
            (jump env target options (Machine.idle v0)).vars.start,
            (jump env target options (Machine.idle v0)).vars.distance, .num d]) ∧
      ∀ (w : Node) (q : String → Option (Option Node)),
        frames { env with window := w, querySelector := q } (pre ++ [tn])
          (jump env target options (Machine.idle v0))
        = frames env (pre ++ [tn]) (jump env target options (Machine.idle v0)) := by
  have hok' : (jump env target options (Machine.idle v0)).pending
      = (Machine.idle v0).pending + 1 := by simpa [Machine.idle] using hok
  obtain ⟨c, hc⟩ := jump_container_node env target options _ hok'
  obtain ⟨hts, _, _⟩ := jump_time_fields env target options _ hok'
  have hfalsy : truthy (jump env target options (Machine.idle v0)).vars.timeStart = false := by
    rw [hts]; exact hv0
  have hmain := commits_run env (jump env target options (Machine.idle v0)).vars g c d t0 tn
    ht0 hg hc hd hlast pre _ hok rfl (Or.inr ⟨hfalsy, hhead⟩) hpre
  rw [commits_jump_log env target options v0 _ hok, List.nil_append] at hmain
  refine ⟨hmain, ?_, fun w q => frames_env env w q _ _⟩
  rw [hmain]
  cases pre with
  | nil =>
    simp only [List.nil_append, List.head?_cons, Option.some.injEq] at hhead
    subst hhead
    simp
  | cons x pre =>
    simp only [List.cons_append, List.head?_cons, Option.some.injEq] at hhead
    subst hhead
    simp

/-- C17, at the frames 10, 500, 1010 of a run of target 200 from a window
scrolled to 300, with the linear easing of the example host: the commits are
300, 398, 500 and then 500. -/
theorem C17_committed_sequence_witness :
    commits (jump (exampleEnv 300) (.num 200) Options.none (Machine.idle Vars.init)).vars.axis
        (frames (exampleEnv 300) ([10, 500] ++ [1010])
          (jump (exampleEnv 300) (.num 200) Options.none (Machine.idle Vars.init))).log
      = [.num 300, .num 398, .num 500, .num 500] :=
  (C17_committed_sequence (exampleEnv 300) (.num 200) Options.none Vars.init 0 1000 10 1010
    [10, 500] (by decide) (by decide) (by decide) (by decide) (by decide) (by decide)
    (by decide) (by decide)).1.trans (by decide)

theorem vars_eq (a b : Vars) (h1 : a.container = b.container) (h2 : a.element = b.element)
    (h3 : a.start = b.start) (h4 : a.stop = b.stop) (h5 : a.axis = b.axis)
    (h6 : a.exact = b.exact) (h7 : a.offset = b.offset) (h8 : a.easing = b.easing)
    (h9 : a.a11y = b.a11y) (h10 : a.distance = b.distance) (h11 : a.duration = b.duration)
    (h12 : a.timeStart = b.timeStart) (h13 : a.timeElapsed = b.timeElapsed)
    (h14 : a.next = b.next) (h15 : a.callback = b.callback) : a = b := by
  cases a
  cases b
  simp only [Vars.mk.injEq]
  exact ⟨h1, h2, h3, h4, h5, h6, h7, h8, h9, h10, h11, h12, h13, h14, h15⟩

theorem jumpTarget_regraft (env : Env) (target : Value) (v w : Vars) (d x y z : Value)
    (h : jumpTarget env target v = .ok w) :
    jumpTarget env target (v.graft w.element w.stop d x y z)
      = .ok (w.graft w.element w.stop d x y z) := by
  by_cases ht : typeOf target = "number" ∨ typeOf target = "object" ∨ typeOf target = "string"
  · exact jumpTarget_graft env target v w w.element w.stop d x y z ht h
  · cases target with
    | undefined =>
      have hw : w = v := by simpa [jumpTarget, typeOf] using h.symm
      subst hw
      simp [jumpTarget, typeOf]
    | bool b =>
      have hw : w = v := by simpa [jumpTarget, typeOf] using h.symm
      subst hw
      simp [jumpTarget, typeOf]
    | func f =>
      have hw : w = v := by simpa [jumpTarget, typeOf] using h.symm
      subst hw
      simp [jumpTarget, typeOf]
    | null => simp [typeOf] at ht
    | num n => simp [typeOf] at ht
    | nan => simp [typeOf] at ht
    | str s => simp [typeOf] at ht
    | node n => simp [typeOf] at ht

/-- A second `jump` with the same arguments, from variables that differ from
those the first left only in `timeStart`, `timeElapsed` and `next`, leaves
the variables as they are and logs what the first logged. -/
theorem jump_again (env : Env) (target : Value) (options : Options) (m : Machine) (u : Vars)
    (p : Nat) (l : List Effect)
    (h : (jump env target options m).pending = m.pending + 1)
    (hu : u.resolved = (jump env target options m).vars.resolved) :
    (jump env target options ⟨u, p, l⟩).vars = u ∧
      (jump env target options ⟨u, p, l⟩).pending = p + 1 ∧
      ∀ l1, (jump env target options m).log = m.log ++ l1 →
        (jump env target options ⟨u, p, l⟩).log = l ++ l1 := by
  obtain ⟨c, start, v, hc, hs, hv, hj⟩ := jump_ok env target options m h
  have hfld := jumpDuration_fields env options
    { v with distance := jsAdd env (jsSub env v.stop v.start) v.offset }
  rw [hj] at hu
  dsimp only at hu
  rw [hfld] at hu
  simp only [Vars.resolved, Vars.mk.injEq] at hu
  obtain ⟨u1, u2, u3, u4, u5, u6, u7, u8, u9, u10, u11, _, _, _, u15⟩ := hu
  have hloc : location { jumpOptions env options u with container := c }
      (jumpOptions env options u).axis = some start := by
    rw [← hs]; rfl
  have hgraft : ({ jumpOptions env options u with container := c, start := start } : Vars)
      = ({ jumpOptions env options m.vars with container := c, start := start } : Vars).graft
          v.element v.stop (jsAdd env (jsSub env v.stop v.start) v.offset)
          u.timeStart u.timeElapsed u.next := by
    simp only [Vars.graft, jumpOptions, Vars.mk.injEq]
    exact ⟨trivial, u2, trivial, u4, trivial, trivial, trivial, trivial, trivial, u10, trivial,
      trivial, trivial, trivial, trivial⟩
  have ht2 := jumpTarget_regraft env target _ v (jsAdd env (jsSub env v.stop v.start) v.offset)
    u.timeStart u.timeElapsed u.next hv
  rw [← hgraft] at ht2
  have hd := jumpDuration_graft env options
    { v with distance := jsAdd env (jsSub env v.stop v.start) v.offset }
    u.timeStart u.timeElapsed u.next
  have hjump : jump env target options ⟨u, p, l⟩ =
      { vars := (jumpDuration env options
          ({ v with distance := jsAdd env (jsSub env v.stop v.start) v.offset } : Vars)).1.graft
            v.element v.stop (jsAdd env (jsSub env v.stop v.start) v.offset)
            u.timeStart u.timeElapsed u.next
        pending := p + 1
        log := l ++ (jumpDuration env options
          { v with distance := jsAdd env (jsSub env v.stop v.start) v.offset }).2
          ++ [Effect.requestFrame] } := by
    unfold jump
    dsimp only
    rw [hc]
    dsimp only
    rw [hloc]
    dsimp only
    rw [ht2]
    dsimp only
    exact congrArg (fun r : Vars × List Effect =>
      (⟨r.1, p + 1, l ++ r.2 ++ [Effect.requestFrame]⟩ : Machine)) hd
  rw [hjump]
  refine ⟨?_, rfl, ?_⟩
  · dsimp only
    rw [hfld]
    exact vars_eq _ _ u1.symm u2.symm u3.symm u4.symm u5.symm u6.symm u7.symm u8.symm u9.symm
      u10.symm u11.symm rfl rfl rfl u15.symm
  · intro l1 hl1
    rw [hj] at hl1
    dsimp only at hl1
    rw [List.append_assoc] at hl1
    have := List.append_cancel_left hl1
    dsimp only
    rw [List.append_assoc, this]

theorem loopVars_unset (env : Env) (t : Int) (a : Vars) (g : Nat)
    (ha : truthy a.timeStart = false) :
    loopVars env t a g =
      { a.resolved with
        timeStart := .num t
        timeElapsed := .num (t - t)
        next := env.call g [.num (t - t), a.resolved.start, a.resolved.distance,
          a.resolved.duration] } := by
  have h : loopTime env t a = { a with timeStart := .num t, timeElapsed := .num (t - t) } := by
    unfold loopTime
    simp [ha, jsSub_num]
  unfold loopVars loopArgs
  rw [h]
  rfl

theorem frame_congr (env : Env) (t : Int) (a b : Machine) (g : Nat) (c : Node)
    (hpa : a.pending = 1) (hpb : b.pending = 1) (hlog : a.log = b.log)
    (hres : a.vars.resolved = b.vars.resolved)
    (ha : truthy a.vars.timeStart = false) (hb : truthy b.vars.timeStart = false)
    (hg : a.vars.easing = .func g) (hc : a.vars.container = .node c) :
    frame env t a = frame env t b := by
  obtain ⟨h1, h2, _, _, _, h6, _⟩ := resolved_fields _ _ hres
  have hv : loopVars env t a.vars g = loopVars env t b.vars g := by
    rw [loopVars_unset env t _ g ha, loopVars_unset env t _ g hb, hres]
  have hargs : loopArgs env t a.vars = loopArgs env t b.vars := by
    have e1 : loopArgs env t a.vars = [(loopVars env t a.vars g).timeElapsed,
      (loopVars env t a.vars g).start, (loopVars env t a.vars g).distance,
      (loopVars env t a.vars g).duration] := rfl
    have e2 : loopArgs env t b.vars = [(loopVars env t b.vars g).timeElapsed,
      (loopVars env t b.vars g).start, (loopVars env t b.vars g).distance,
      (loopVars env t b.vars g).duration] := rfl
    rw [e1, e2, hv]
  rw [frame_one env t a hpa, frame_one env t b hpb,
    loop_eq env t { a with pending := 0 } g c hg hc,
    loop_eq env t { b with pending := 0 } g c (h6.symm.trans hg) (h1.symm.trans hc)]
  dsimp only
  rw [hv, hargs, hlog, h2]

/-- C14: when a run from unset `timeStart` has completed over the frames `ts`,
the same invocation made again from the variables it left, on the same host
and over the same frames, logs the same effects, so it commits the same
sequence of offsets. -/
theorem C14_same_run_twice (env : Env) (target : Value) (options : Options) (v0 : Vars)
    (ts : List Int) (hv0 : truthy v0.timeStart = false)
    (hdone : (frames env ts (jump env target options (Machine.idle v0))).pending = 0)
    (hok : Effect.uncaught ∉ (frames env ts (jump env target options (Machine.idle v0))).log) :
    (frames env ts (jump env target options
        (Machine.idle (frames env ts (jump env target options (Machine.idle v0))).vars))).log
      = (frames env ts (jump env target options (Machine.idle v0))).log ∧
    commits (jump env target options (Machine.idle v0)).vars.axis
        (frames env ts (jump env target options
          (Machine.idle (frames env ts (jump env target options (Machine.idle v0))).vars))).log
      = commits (jump env target options (Machine.idle v0)).vars.axis
        (frames env ts (jump env target options (Machine.idle v0))).log := by
  obtain ⟨hp, _, hres, hts, _⟩ := completed_finishedLog env target options v0 ts hdone hok
  have hp' : (jump env target options (Machine.idle v0)).pending
      = (Machine.idle v0).pending + 1 := by simpa [Machine.idle] using hp
  obtain ⟨hvars, hpend, hlog⟩ := jump_again env target options (Machine.idle v0)
    (frames env ts (jump env target options (Machine.idle v0))).vars 0 [] hp' hres
  have hlog2 := hlog (jump env target options (Machine.idle v0)).log (by simp [Machine.idle])
  obtain ⟨c, hc⟩ := jump_container_node env target options _ hp'
  obtain ⟨hstart, _, _⟩ := jump_time_fields env target options _ hp'
  have hmain : frames env ts (jump env target options
      (Machine.idle (frames env ts (jump env target options (Machine.idle v0))).vars))
      = frames env ts (jump env target options (Machine.idle v0)) := by
    cases ts with
    | nil =>
      have h0 : (jump env target options (Machine.idle v0)).pending = 0 := hdone
      omega
    | cons t ts =>
      by_cases hg : ∃ g, (jump env target options (Machine.idle v0)).vars.easing = .func g
      · obtain ⟨g, hg⟩ := hg
        have hf := frame_congr env t (jump env target options (Machine.idle v0))
          (jump env target options
            (Machine.idle (frames env (t :: ts)
              (jump env target options (Machine.idle v0))).vars)) g c hp
          (by simpa [Machine.idle] using hpend)
          (by simpa [Machine.idle] using hlog2.symm)
          (by rw [show (jump env target options (Machine.idle (frames env (t :: ts)
                (jump env target options (Machine.idle v0))).vars)).vars = _ from hvars]
              exact hres.symm)
          (by rw [hstart]; exact hv0)
          (by rw [show (jump env target options (Machine.idle (frames env (t :: ts)
                (jump env target options (Machine.idle v0))).vars)).vars = _ from hvars, hts]
              rfl)
          hg hc
        show frames env ts (frame env t _) = frames env ts (frame env t _)
        rw [hf]
      · have hfail := loop_failed_easing env t
          { jump env target options (Machine.idle v0) with pending := 0 } rfl
          (fun g hg2 => hg ⟨g, hg2⟩)
        rw [← frame_one env t _ hp] at hfail
        exact absurd (frames_failed env ts _ hfail).2 hok
  rw [hmain]
  exact ⟨rfl, rfl⟩

/-- C14, at a run of target 200 over the frames 10, 500, 1010: the second run
commits 300, 398, 500, 500 as the first did. -/
theorem C14_same_run_twice_witness :
    commits (.str "y")
        (frames (exampleEnv 300) [10, 500, 1010] (jump (exampleEnv 300) (.num 200) Options.none
          (Machine.idle (frames (exampleEnv 300) [10, 500, 1010]
            (jump (exampleEnv 300) (.num 200) Options.none (Machine.idle Vars.init))).vars))).log
      = [.num 300, .num 398, .num 500, .num 500] :=
  (C14_same_run_twice (exampleEnv 300) (.num 200) Options.none Vars.init [10, 500, 1010]
    (by decide) (by decide) (by decide)).2.trans (by decide)

theorem commitEffect_ne_uncaught (c : Node) (axis d : Value) :
    commitEffect c axis d ≠ Effect.uncaught := by
  intro h
  have := commitEffect_isTick c axis d
  rw [h] at this
  cases this

/-- One tick of a run that cannot throw, whose `timeStart` is the nonzero `s` or
is unset at a tick of time `s`: it goes on when `t - s < d` and goes through
`done` otherwise. -/
theorem tick_progress (env : Env) (r : Vars) (g : Nat) (c : Node) (fx : List Effect)
    (d s t : Int) (m : Machine)
    (hg : r.easing = .func g) (hc : r.container = .node c) (hd : r.duration = .num d)
    (hfx : focusTransfer r = some fx) (hrun : Running r m)
    (hl : (m.vars.timeStart = .num s ∧ s ≠ 0) ∨ (truthy m.vars.timeStart = false ∧ t = s)) :
    (t - s < d → Running r (frame env t m) ∧ (frame env t m).vars.timeStart = .num s) ∧
      (d ≤ t - s → Finished env r (frame env t m) ∧
        (frame env t m).vars.timeStart = .bool false) := by
  obtain ⟨hp, hu, hr⟩ := hrun
  obtain ⟨hf, hts, hres⟩ := tick_latched env r g c d s t m hg hc hd hp hr hl
  constructor
  · intro hlt
    rw [hf, if_pos hlt]
    refine ⟨⟨rfl, ?_, hres⟩, hts⟩
    simp [hu, (commitEffect_ne_uncaught _ _ _).symm]
  · intro hge
    rw [hf, if_neg (by omega)]
    obtain ⟨k1, _⟩ := resolved_fields _ _ hres
    have hfx2 : focusTransfer (loopVars env t m.vars g) = some fx := by
      rw [focusTransfer_congr _ _ hres]; exact hfx
    have hnu : Effect.uncaught ∉ m.log ++
        [Effect.call g [.num (t - s), r.start, r.distance, .num d],
          commitEffect c r.axis (env.call g [.num (t - s), r.start, r.distance, .num d])] := by
      simp [hu, (commitEffect_ne_uncaught _ _ _).symm]
    have hde := done_eq env
      { vars := loopVars env t m.vars g, pending := 0,
        log := m.log ++ [Effect.call g [.num (t - s), r.start, r.distance, .num d],
          commitEffect c r.axis (env.call g [.num (t - s), r.start, r.distance, .num d])] }
      c fx (k1.trans hc) hfx2
    rcases done_cases env r
      { vars := loopVars env t m.vars g, pending := 0,
        log := m.log ++ [Effect.call g [.num (t - s), r.start, r.distance, .num d],
          commitEffect c r.axis (env.call g [.num (t - s), r.start, r.distance, .num d])] }
      rfl hnu hres with hfail | hfin
    · exfalso
      have hmem := hfail.2
      rw [hde] at hmem
      dsimp only at hmem
      simp only [List.mem_append, List.mem_singleton] at hmem
      rcases hmem with ((h1 | h1) | h1) | h1
      · exact hnu (List.mem_append.mpr h1)
      · exact commitEffect_ne_uncaught _ _ _ h1.symm
      · exact uncaught_not_mem_focusTransfer _ _ hfx2 h1
      · exact uncaught_not_mem_callbackEffects _ h1
    · refine ⟨hfin, ?_⟩
      rw [hde]

theorem frames_range_succ (env : Env) (τ : Nat → Int) (n : Nat) (m : Machine) :
    frames env ((List.range (n + 1)).map τ) m
      = frame env (τ n) (frames env ((List.range n).map τ) m) := by
  rw [List.range_succ, List.map_append, frames_append]
  rfl

theorem finished_frame (env : Env) (r : Vars) (t : Int) (m : Machine)
    (h : Finished env r m ∧ m.vars.timeStart = .bool false) :
    Finished env r (frame env t m) ∧ (frame env t m).vars.timeStart = .bool false := by
  rw [frame_idle env t m h.1.1]; exact h

/-- A run that cannot throw, with a numeric duration, started from unset
`timeStart`, completes within finitely many frames when the frame times are
non-decreasing and unbounded. -/
theorem run_terminates (env : Env) (r : Vars) (g : Nat) (c : Node) (fx : List Effect)
    (d : Int) (τ : Nat → Int) (m : Machine)
    (hg : r.easing = .func g) (hc : r.container = .node c) (hd : r.duration = .num d)
    (hfx : focusTransfer r = some fx) (hrun : Running r m)
    (hunset : truthy m.vars.timeStart = false)
    (hmono : Monotone τ) (hunb : ∀ b : Int, ∃ n, b < τ n) :
    ∃ n, Finished env r (frames env ((List.range n).map τ) m) ∧
      (frames env ((List.range n).map τ) m).vars.timeStart = .bool false := by
  by_cases hd0 : d ≤ 0
  · refine ⟨1, ?_⟩
    rw [frames_range_succ]
    exact (tick_progress env r g c fx d (τ 0) (τ 0) _ hg hc hd hfx hrun
      (Or.inr ⟨hunset, rfl⟩)).2 (by omega)
  · have hdpos : 0 < d := by omega
    -- the state after `n` frames
    have hinv : ∀ n,
        (Finished env r (frames env ((List.range n).map τ) m) ∧
          (frames env ((List.range n).map τ) m).vars.timeStart = .bool false) ∨
        ((Running r (frames env ((List.range n).map τ) m) ∧
          truthy (frames env ((List.range n).map τ) m).vars.timeStart = false) ∧
          ∀ i, i < n → τ i = 0) ∨
        (∃ i, i < n ∧ τ i ≠ 0 ∧ Running r (frames env ((List.range n).map τ) m) ∧
          (frames env ((List.range n).map τ) m).vars.timeStart = .num (τ i)) := by
      intro n
      induction n with
      | zero =>
        right; left
        exact ⟨⟨hrun, hunset⟩, fun i hi => absurd hi (Nat.not_lt_zero i)⟩
      | succ n ih =>
        rw [frames_range_succ]
        rcases ih with h | ⟨⟨h1, h2⟩, h3⟩ | ⟨i, hi, hne, h1, h2⟩
        · left; exact finished_frame env r _ _ h
        · obtain ⟨hr2, hts⟩ := (tick_progress env r g c fx d (τ n) (τ n) _ hg hc hd hfx h1
            (Or.inr ⟨h2, rfl⟩)).1 (by omega)
          by_cases hz : τ n = 0
          · right; left
            refine ⟨⟨hr2, ?_⟩, ?_⟩
            · rw [hts, hz]; rfl
            · intro i hi
              rcases Nat.lt_succ_iff_lt_or_eq.mp hi with h | h
              · exact h3 i h
              · rw [h]; exact hz
          · right; right
            exact ⟨n, Nat.lt_succ_self n, hz, hr2, hts⟩
        · have hp := tick_progress env r g c fx d (τ i) (τ n) _ hg hc hd hfx h1
            (Or.inl ⟨h2, hne⟩)
          by_cases hlt : τ n - τ i < d
          · right; right
            exact ⟨i, Nat.lt_succ_of_lt hi, hne, (hp.1 hlt).1, (hp.1 hlt).2⟩
          · left
            exact hp.2 (by omega)
    obtain ⟨k, hk⟩ := hunb 0
    rcases hinv (k + 1) with h | ⟨_, h3⟩ | ⟨i, hi, hne, h1, h2⟩
    · exact ⟨k + 1, h⟩
    · have := h3 k (Nat.lt_succ_self k)
      omega
    · obtain ⟨n0, hn0⟩ := hunb (τ i + d)
      -- from `k + 1` on the run is finished or still measures from `τ i`
      have hlater : ∀ j,
          (Finished env r (frames env ((List.range (k + 1 + j)).map τ) m) ∧
            (frames env ((List.range (k + 1 + j)).map τ) m).vars.timeStart = .bool false) ∨
          (Running r (frames env ((List.range (k + 1 + j)).map τ) m) ∧
            (frames env ((List.range (k + 1 + j)).map τ) m).vars.timeStart = .num (τ i)) := by
        intro j
        induction j with
        | zero => right; exact ⟨h1, h2⟩
        | succ j ih =>
          have e : k + 1 + (j + 1) = (k + 1 + j) + 1 := by omega
          rw [e, frames_range_succ]
          rcases ih with h | ⟨h1, h2⟩
          · left; exact finished_frame env r _ _ h
          · have hp := tick_progress env r g c fx d (τ i) (τ (k + 1 + j)) _ hg hc hd hfx h1
              (Or.inl ⟨h2, hne⟩)
            by_cases hlt : τ (k + 1 + j) - τ i < d
            · right; exact hp.1 hlt
            · left; exact hp.2 (by omega)
      refine ⟨k + 1 + n0 + 1, ?_⟩
      rw [frames_range_succ]
      rcases hlater n0 with h | ⟨h1, h2⟩
      · exact finished_frame env r _ _ h
      · have hp := tick_progress env r g c fx d (τ i) (τ (k + 1 + n0)) _ hg hc hd hfx h1
          (Or.inl ⟨h2, hne⟩)
        have hle : τ n0 ≤ τ (k + 1 + n0) := hmono (by omega)
        exact hp.2 (by omega)

/-- C18: a run of a number, object or string target, resolved from unset
`timeStart` with an easing function and a numeric duration, reaches `done`
after finitely many frames whenever the frame times are non-decreasing and
unbounded, a first frame time of 0 included: after some number `n` of frames
no callback waits, nothing was thrown, the last commit is `start + distance`
and `timeStart` has been reset. -/
theorem C18_run_terminates (env : Env) (target : Value) (options : Options) (v0 : Vars)
    (g : Nat) (d : Int) (τ : Nat → Int)
    (ht : typeOf target = "number" ∨ typeOf target = "object" ∨ typeOf target = "string")
    (hv0 : truthy v0.timeStart = false)
    (hok : (jump env target options (Machine.idle v0)).pending = 1)
    (hg : (jump env target options (Machine.idle v0)).vars.easing = .func g)
    (hd : (jump env target options (Machine.idle v0)).vars.duration = .num d)
    (hmono : Monotone τ) (hunb : ∀ b : Int, ∃ n, b < τ n) :
    ∃ n,
      (frames env ((List.range n).map τ) (jump env target options (Machine.idle v0))).pending = 0 ∧
      Effect.uncaught ∉
        (frames env ((List.range n).map τ) (jump env target options (Machine.idle v0))).log ∧
      (commits (jump env target options (Machine.idle v0)).vars.axis
        (frames env ((List.range n).map τ)
          (jump env target options (Machine.idle v0))).log).getLast?
        = some (jsAdd env (jump env target options (Machine.idle v0)).vars.start
            (jump env target options (Machine.idle v0)).vars.distance) ∧
      (frames env ((List.range n).map τ)
        (jump env target options (Machine.idle v0))).vars.timeStart = .bool false := by
  have hok' : (jump env target options (Machine.idle v0)).pending
      = (Machine.idle v0).pending + 1 := by simpa [Machine.idle] using hok
  obtain ⟨c, hc⟩ := jump_container_node env target options _ hok'
  obtain ⟨hts, _, _⟩ := jump_time_fields env target options _ hok'
  have hfx := jump_focusTransfer env target options _ ht hok'
  have hrun : Running (jump env target options (Machine.idle v0)).vars
      (jump env target options (Machine.idle v0)) := by
    refine ⟨hok, ?_, rfl⟩
    rcases jump_log env target options v0 hok with h | ⟨f, x, h⟩ <;> rw [h] <;> simp
  obtain ⟨n, ⟨h1, h2, h3⟩, h4⟩ := run_terminates env _ g c _ d τ _ hg hc hd hfx hrun
    (by rw [hts]; exact hv0) hmono hunb
  exact ⟨n, h1, h2, h3, h4⟩

/-- C18, at frames every 600 from a first frame at time 0, for a run of target
200 and the default duration 1000. -/
theorem C18_run_terminates_witness :
    ∃ n,
      (frames (exampleEnv 300) ((List.range n).map (fun i : Nat => 600 * (i : Int)))
        (jump (exampleEnv 300) (.num 200) Options.none (Machine.idle Vars.init))).pending = 0 ∧
      Effect.uncaught ∉
        (frames (exampleEnv 300) ((List.range n).map (fun i : Nat => 600 * (i : Int)))
          (jump (exampleEnv 300) (.num 200) Options.none (Machine.idle Vars.init))).log ∧
      (commits (jump (exampleEnv 300) (.num 200) Options.none
          (Machine.idle Vars.init)).vars.axis
        (frames (exampleEnv 300) ((List.range n).map (fun i : Nat => 600 * (i : Int)))
          (jump (exampleEnv 300) (.num 200) Options.none
            (Machine.idle Vars.init))).log).getLast?
        = some (jsAdd (exampleEnv 300)
            (jump (exampleEnv 300) (.num 200) Options.none (Machine.idle Vars.init)).vars.start
            (jump (exampleEnv 300) (.num 200) Options.none
              (Machine.idle Vars.init)).vars.distance) ∧
      (frames (exampleEnv 300) ((List.range n).map (fun i : Nat => 600 * (i : Int)))
        (jump (exampleEnv 300) (.num 200) Options.none
          (Machine.idle Vars.init))).vars.timeStart = .bool false :=
  C18_run_terminates (exampleEnv 300) (.num 200) Options.none Vars.init 0 1000
    (fun i : Nat => 600 * (i : Int)) (by decide) (by decide) (by decide) (by decide) (by decide)
    (fun a b h => by
      have h2 : (a : Int) ≤ (b : Int) := Int.ofNat_le.mpr h
      show 600 * (a : Int) ≤ 600 * (b : Int)
      omega)
    (fun b => ⟨b.toNat + 1, by
      show b < 600 * ((b.toNat + 1 : Nat) : Int)
      omega⟩)

theorem loop_eq_no_easing (env : Env) (t : Int) (m : Machine)
    (h : ∀ g, m.vars.easing ≠ .func g) :
    loop env t m = uncaught { m with vars := loopTime env t m.vars } := by
  obtain ⟨_, _, _, _, _, h6, _⟩ := resolved_fields _ _ (loopTime_resolved env t m.vars)
  have hcall : callValue env (loopTime env t m.vars).easing
      [(loopTime env t m.vars).timeElapsed, (loopTime env t m.vars).start,
        (loopTime env t m.vars).distance, (loopTime env t m.vars).duration] = none := by
    rw [h6]
    unfold callValue
    split
    · rename_i g hg; exact absurd hg (h g)
    · rfl
  unfold loop
  dsimp only
  rw [hcall]

theorem loop_eq_no_container (env : Env) (t : Int) (m : Machine) (g : Nat)
    (hg : m.vars.easing = .func g) (h : ∀ c, m.vars.container ≠ .node c) :
    loop env t m =
      uncaught { m with
        vars := loopVars env t m.vars g
        log := m.log ++ [Effect.call g (loopArgs env t m.vars)] } := by
  obtain ⟨h1, _, _, _, _, h6, _⟩ := resolved_fields _ _ (loopTime_resolved env t m.vars)
  have hcall : callValue env (loopTime env t m.vars).easing
      [(loopTime env t m.vars).timeElapsed, (loopTime env t m.vars).start,
        (loopTime env t m.vars).distance, (loopTime env t m.vars).duration]
      = some (Effect.call g (loopArgs env t m.vars), env.call g (loopArgs env t m.vars)) := by
    rw [h6, hg]; rfl
  have hscroll : scrollTo ({ loopTime env t m.vars with
      next := env.call g (loopArgs env t m.vars) } : Vars) (env.call g (loopArgs env t m.vars))
      = none := by
    unfold scrollTo
    dsimp only
    rw [h1]
    split
    · rename_i c hc; exact absurd hc (h c)
    · rfl
  unfold loop
  dsimp only
  rw [hcall]
  dsimp only
  rw [hscroll]
  rfl

theorem done_eq_no_focus (env : Env) (m : Machine) (c : Node)
    (hc : m.vars.container = .node c) (hf : focusTransfer m.vars = none) :
    done env m =
      uncaught { m with
        log := m.log ++ [commitEffect c m.vars.axis (jsAdd env m.vars.start m.vars.distance)] } := by
  unfold done
  dsimp only
  rw [scrollTo_node _ c _ hc]
  dsimp only
  rw [hf]

theorem loopArgs_eq (env : Env) (r : Vars) (t : Int) (v : Vars) (hr : v.resolved = r.resolved) :
    loopArgs env t v = [(loopTime env t v).timeElapsed, r.start, r.distance, r.duration] := by
  obtain ⟨_, _, h3, h4, h5, _⟩ := resolved_fields _ _ ((loopTime_resolved env t v).trans hr)
  unfold loopArgs
  rw [h3, h4, h5]

/-- Whatever the variables `timeStart`, `timeElapsed` and `next` hold, a call
of `loop` on resolved variables `r` leaves them resolved as they are and adds
to the log only effects computed from `r`. -/
theorem loop_of_run (env : Env) (r : Vars) (t : Int) (m : Machine)
    (hr : m.vars.resolved = r.resolved) :
    (loop env t m).vars.resolved = r.resolved ∧
      ∃ l, (loop env t m).log = m.log ++ l ∧ ∀ e ∈ l, EffectOfRun env r e := by
  obtain ⟨h1, h2, h3, h4, h5, h6, _, _, h9⟩ := resolved_fields _ _ hr
  have hlt := (loopTime_resolved env t m.vars).trans hr
  by_cases hg : ∃ g, m.vars.easing = .func g
  swap
  · rw [loop_eq_no_easing env t m (fun g hg2 => hg ⟨g, hg2⟩)]
    refine ⟨hlt, [Effect.uncaught], rfl, ?_⟩
    intro e he
    rw [List.mem_singleton] at he
    subst he
    exact Or.inr (Or.inr (Or.inr (Or.inr (Or.inr (Or.inr rfl)))))
  obtain ⟨g, hg⟩ := hg
  have hlv := (loopVars_resolved env t m.vars g).trans hr
  have hargs := loopArgs_eq env r t m.vars hr
  have hcall : EffectOfRun env r (Effect.call g (loopArgs env t m.vars)) := by
    left
    exact ⟨g, _, h6.symm.trans hg, by rw [hargs]⟩
  have hunc : EffectOfRun env r Effect.uncaught :=
    Or.inr (Or.inr (Or.inr (Or.inr (Or.inr (Or.inr rfl)))))
  by_cases hc : ∃ c, m.vars.container = .node c
  swap
  · rw [loop_eq_no_container env t m g hg (fun c hc2 => hc ⟨c, hc2⟩)]
    refine ⟨hlv, [Effect.call g (loopArgs env t m.vars), Effect.uncaught], ?_, ?_⟩
    · simp [uncaught]
    · intro e he
      simp only [List.mem_cons, List.mem_singleton, List.not_mem_nil, or_false] at he
      rcases he with he | he
      · rw [he]; exact hcall
      · rw [he]; exact hunc
  obtain ⟨c, hc⟩ := hc
  have hcommit : EffectOfRun env r
      (commitEffect c m.vars.axis (env.call g (loopArgs env t m.vars))) := by
    right; left
    exact ⟨c, g, _, h1.symm.trans hc, h6.symm.trans hg, by rw [hargs, h2]⟩
  rw [loop_eq env t m g c hg hc]
  split
  · refine ⟨hlv, [Effect.call g (loopArgs env t m.vars),
      commitEffect c m.vars.axis (env.call g (loopArgs env t m.vars)), Effect.requestFrame],
      rfl, ?_⟩
    intro e he
    simp only [List.mem_cons, List.mem_singleton, List.not_mem_nil, or_false] at he
    rcases he with he | he | he
    · rw [he]; exact hcall
    · rw [he]; exact hcommit
    · rw [he]; exact Or.inr (Or.inr (Or.inr (Or.inr (Or.inr (Or.inl rfl)))))
  · obtain ⟨k1, k2, k3, k4, _, _, _, _, k9⟩ := resolved_fields _ _ hlv
    have hfinal : EffectOfRun env r (commitEffect c (loopVars env t m.vars g).axis
        (jsAdd env (loopVars env t m.vars g).start (loopVars env t m.vars g).distance)) := by
      right; right; left
      exact ⟨c, h1.symm.trans hc, by rw [k2, k3, k4]⟩
    cases hf : focusTransfer (loopVars env t m.vars g) with
    | none =>
      rw [done_eq_no_focus env _ c (k1.trans (h1.symm.trans hc)) hf]
      refine ⟨hlv, [Effect.call g (loopArgs env t m.vars),
        commitEffect c m.vars.axis (env.call g (loopArgs env t m.vars)),
        commitEffect c (loopVars env t m.vars g).axis
          (jsAdd env (loopVars env t m.vars g).start (loopVars env t m.vars g).distance),
        Effect.uncaught], ?_, ?_⟩
      · simp [uncaught]
      · intro e he
        simp only [List.mem_cons, List.mem_singleton, List.not_mem_nil, or_false] at he
        rcases he with he | he | he | he
        · rw [he]; exact hcall
        · rw [he]; exact hcommit
        · rw [he]; exact hfinal
        · rw [he]; exact hunc
    | some fx =>
      rw [done_eq env _ c fx (k1.trans (h1.symm.trans hc)) hf]
      have hfx : focusTransfer r = some fx := by
        rw [← focusTransfer_congr _ _ hlv]; exact hf
      refine ⟨?_, [Effect.call g (loopArgs env t m.vars),
        commitEffect c m.vars.axis (env.call g (loopArgs env t m.vars)),
        commitEffect c (loopVars env t m.vars g).axis
          (jsAdd env (loopVars env t m.vars g).start (loopVars env t m.vars g).distance)]
        ++ fx ++ callbackEffects (loopVars env t m.vars g).callback, ?_, ?_⟩
      · rw [← hlv]; rfl
      · simp
      · intro e he
        simp only [List.mem_append, List.mem_cons, List.mem_singleton, List.not_mem_nil,
          or_false] at he
        rcases he with ((he | he | he) | he) | he
        · rw [he]; exact hcall
        · rw [he]; exact hcommit
        · rw [he]; exact hfinal
        · exact Or.inr (Or.inr (Or.inr (Or.inl ⟨fx, hfx, he⟩)))
        · rw [k9] at he
          exact Or.inr (Or.inr (Or.inr (Or.inr (Or.inl he))))

theorem iterate_loop_of_run (env : Env) (r : Vars) (t : Int) (k : Nat) (m : Machine)
    (hr : m.vars.resolved = r.resolved) :
    (Nat.iterate (loop env t) k m).vars.resolved = r.resolved ∧
      ∃ l, (Nat.iterate (loop env t) k m).log = m.log ++ l ∧ ∀ e ∈ l, EffectOfRun env r e := by
  induction k generalizing m with
  | zero => exact ⟨hr, [], by simp, by simp⟩
  | succ k ih =>
    obtain ⟨h1, l1, hl1, he1⟩ := loop_of_run env r t m hr
    obtain ⟨h2, l2, hl2, he2⟩ := ih (loop env t m) h1
    have hstep : Nat.iterate (loop env t) (k + 1) m = Nat.iterate (loop env t) k (loop env t m) :=
      rfl
    rw [hstep]
    refine ⟨h2, l1 ++ l2, by rw [hl2, hl1, List.append_assoc], ?_⟩
    intro e he
    rcases List.mem_append.mp he with h | h
    · exact he1 e h
    · exact he2 e h

/-- Frames on resolved variables `r`, however many `loop` callbacks wait: the
resolved variables stay those of `r` and every effect added to the log is
computed from `r`. -/
theorem frames_of_run (env : Env) (r : Vars) (ts : List Int) (m : Machine)
    (hr : m.vars.resolved = r.resolved) :
    (frames env ts m).vars.resolved = r.resolved ∧
      ∃ l, (frames env ts m).log = m.log ++ l ∧ ∀ e ∈ l, EffectOfRun env r e := by
  induction ts generalizing m with
  | nil => exact ⟨hr, [], by simp [frames], by simp⟩
  | cons t ts ih =>
    have hstep : frames env (t :: ts) m = frames env ts (frame env t m) := rfl
    obtain ⟨h1, l1, hl1, he1⟩ := iterate_loop_of_run env r t m.pending { m with pending := 0 } hr
    have hf : frame env t m = Nat.iterate (loop env t) m.pending { m with pending := 0 } := rfl
    rw [← hf] at h1 hl1
    obtain ⟨h2, l2, hl2, he2⟩ := ih (frame env t m) h1
    rw [hstep]
    refine ⟨h2, l1 ++ l2, by rw [hl2, hl1, List.append_assoc], ?_⟩
    intro e he
    rcases List.mem_append.mp he with h | h
    · exact he1 e h
    · exact he2 e h

theorem callback_of_run (env : Env) (r : Vars) (f : Nat)
    (h : EffectOfRun env r (Effect.call f [])) : r.callback = .func f := by
  rcases h with ⟨g, el, _, h⟩ | ⟨c, g, el, _, _, h⟩ | ⟨c, _, h⟩ | ⟨fx, hfx, h⟩ | h | h | h
  · simp at h
  · have := commitEffect_isTick c r.axis (env.call g [el, r.start, r.distance, r.duration])
    rw [← h] at this
    simp [Effect.isTick] at this
  · have := commitEffect_isTick c r.axis (jsAdd env r.start r.distance)
    rw [← h] at this
    simp [Effect.isTick] at this
  · have h1 := filter_isFocus_focusTransfer r fx hfx
    rw [← h1, List.mem_filter] at h
    simp [Effect.isFocus] at h
  · cases hcb : r.callback with
    | func f2 =>
      rw [hcb] at h
      simp only [callbackEffects, List.mem_singleton, Effect.call.injEq, and_true] at h
      rw [h]
    | undefined => rw [hcb] at h; simp [callbackEffects] at h
    | null => rw [hcb] at h; simp [callbackEffects] at h
    | bool b => rw [hcb] at h; simp [callbackEffects] at h
    | num n => rw [hcb] at h; simp [callbackEffects] at h
    | nan => rw [hcb] at h; simp [callbackEffects] at h
    | str s => rw [hcb] at h; simp [callbackEffects] at h
    | node n => rw [hcb] at h; simp [callbackEffects] at h
  · cases h
  · cases h

theorem commit_of_run (env : Env) (r : Vars) (e : Effect) (x : Value)
    (h : EffectOfRun env r e) (hx : e.committed r.axis = some x) :
    x = jsAdd env r.start r.distance ∨
      ∃ g elapsed, r.easing = .func g ∧
        x = env.call g [elapsed, r.start, r.distance, r.duration] := by
  rcases h with ⟨g, el, _, h⟩ | ⟨c, g, el, _, hg, h⟩ | ⟨c, _, h⟩ | ⟨fx, hfx, h⟩ | h | h | h
  · rw [h] at hx; cases hx
  · rw [h, committed_commitEffect] at hx
    exact Or.inr ⟨g, el, hg, (Option.some.inj hx).symm⟩
  · rw [h, committed_commitEffect] at hx
    exact Or.inl (Option.some.inj hx).symm
  · have hm : x ∈ commits r.axis fx := List.mem_filterMap.mpr ⟨e, h, hx⟩
    rw [commits_focusTransfer r.axis r fx hfx] at hm
    cases hm
  · have hm : x ∈ commits r.axis (callbackEffects r.callback) :=
      List.mem_filterMap.mpr ⟨e, h, hx⟩
    rw [commits_callbackEffects] at hm
    cases hm
  · rw [h] at hx; cases hx
  · rw [h] at hx; cases hx

/-- C8, amended: the invocations share the closure's one set of variables. When
a second invocation (of a number, an object or a string, on whatever the
window and the document are by then) is made while the first run waits for a
frame, after any number `ts1` of its frames, two `loop` callbacks wait; the
variables are those the second invocation alone would have left, except
`timeStart`, `timeElapsed` and `next`, which stay as the first run left them;
and over any later frames `ts2` the resolved variables stay those of the second
invocation and every effect added to the log is computed from them: any
callback called is the second invocation's, and any offset committed is its
`start + distance` or a result of its easing on its `start`, `distance` and
`duration`. -/
theorem C8_overlapping_runs_share_variables (env : Env) (target1 target2 : Value)
    (options1 options2 : Options) (v0 : Vars) (ts1 ts2 : List Int) (w : Node)
    (q : String → Option (Option Node))
    (ht : typeOf target2 = "number" ∨ typeOf target2 = "object" ∨ typeOf target2 = "string")
    (h1 : (frames env ts1 (jump env target1 options1 (Machine.idle v0))).pending = 1)
    (h2 : (jump { env with window := w, querySelector := q } target2 options2
      (Machine.idle v0)).pending = 1) :
    (jump { env with window := w, querySelector := q } target2 options2
        (frames env ts1 (jump env target1 options1 (Machine.idle v0)))).pending = 2 ∧
      (jump { env with window := w, querySelector := q } target2 options2
        (frames env ts1 (jump env target1 options1 (Machine.idle v0)))).vars =
        { (jump { env with window := w, querySelector := q } target2 options2
            (Machine.idle v0)).vars with
          timeStart := (frames env ts1 (jump env target1 options1 (Machine.idle v0))).vars.timeStart
          timeElapsed :=
            (frames env ts1 (jump env target1 options1 (Machine.idle v0))).vars.timeElapsed
          next := (frames env ts1 (jump env target1 options1 (Machine.idle v0))).vars.next } ∧
      (frames env ts2 (jump { env with window := w, querySelector := q } target2 options2
        (frames env ts1 (jump env target1 options1 (Machine.idle v0))))).vars.resolved =
        (jump { env with window := w, querySelector := q } target2 options2
          (Machine.idle v0)).vars.resolved ∧
      ∃ l,
        (frames env ts2 (jump { env with window := w, querySelector := q } target2 options2
          (frames env ts1 (jump env target1 options1 (Machine.idle v0))))).log =
          (jump { env with window := w, querySelector := q } target2 options2
            (frames env ts1 (jump env target1 options1 (Machine.idle v0)))).log ++ l ∧
        (∀ e ∈ l, EffectOfRun env
          (jump { env with window := w, querySelector := q } target2 options2
            (Machine.idle v0)).vars e) ∧
        (∀ f, Effect.call f [] ∈ l →
          (jump { env with window := w, querySelector := q } target2 options2
            (Machine.idle v0)).vars.callback = .func f) ∧
        (∀ x ∈ commits
            (jump { env with window := w, querySelector := q } target2 options2
              (Machine.idle v0)).vars.axis l,
          x = jsAdd env
              (jump { env with window := w, querySelector := q } target2 options2
                (Machine.idle v0)).vars.start
              (jump { env with window := w, querySelector := q } target2 options2
                (Machine.idle v0)).vars.distance ∨
          ∃ g elapsed,
            (jump { env with window := w, querySelector := q } target2 options2
              (Machine.idle v0)).vars.easing = .func g ∧
            x = env.call g [elapsed,
              (jump { env with window := w, querySelector := q } target2 options2
                (Machine.idle v0)).vars.start,
              (jump { env with window := w, querySelector := q } target2 options2
                (Machine.idle v0)).vars.distance,
              (jump { env with window := w, querySelector := q } target2 options2
                (Machine.idle v0)).vars.duration]) := by
  obtain ⟨hp, hv⟩ := jump_vars_of_prior { env with window := w, querySelector := q } target2
    options2 (Machine.idle v0) (frames env ts1 (jump env target1 options1 (Machine.idle v0)))
    ht (by simpa [Machine.idle] using h2)
  have hres : (jump { env with window := w, querySelector := q } target2 options2
      (frames env ts1 (jump env target1 options1 (Machine.idle v0)))).vars.resolved =
      (jump { env with window := w, querySelector := q } target2 options2
        (Machine.idle v0)).vars.resolved := by
    rw [hv]; rfl
  obtain ⟨hr2, l, hl, he⟩ := frames_of_run env _ ts2 _ hres
  refine ⟨by rw [hp, h1], hv, hr2, l, hl, he, ?_, ?_⟩
  · intro f hf
    exact callback_of_run env _ f (he _ hf)
  · intro x hx
    obtain ⟨e, hmem, hc⟩ := List.mem_filterMap.mp hx
    exact commit_of_run env _ e x (he e hmem) hc

/-- C8 amended, at a second invocation made after one frame of the first, on a
window that has moved to 310: two callbacks wait, `timeStart` is still the
first run's 1, and over the frames 20 and 40 callback 1 is never called. -/
theorem C8_overlapping_runs_share_variables_witness :
    (jump { exampleEnv 300 with
          window := exampleWindow 310, querySelector := (exampleEnv 300).querySelector }
        (.num 200) { Options.none with duration := .num 10, callback := .func 2 }
        (frames (exampleEnv 300) [1] (jump (exampleEnv 300) (.num 100)
          { Options.none with duration := .num 10, callback := .func 1 }
          (Machine.idle Vars.init)))).pending = 2 ∧
      (jump { exampleEnv 300 with
          window := exampleWindow 310, querySelector := (exampleEnv 300).querySelector }
        (.num 200) { Options.none with duration := .num 10, callback := .func 2 }
        (frames (exampleEnv 300) [1] (jump (exampleEnv 300) (.num 100)
          { Options.none with duration := .num 10, callback := .func 1 }
          (Machine.idle Vars.init)))).vars.timeStart = .num 1 ∧
      (frames (exampleEnv 300) [20, 40] (jump { exampleEnv 300 with
          window := exampleWindow 310, querySelector := (exampleEnv 300).querySelector }
        (.num 200) { Options.none with duration := .num 10, callback := .func 2 }
        (frames (exampleEnv 300) [1] (jump (exampleEnv 300) (.num 100)
          { Options.none with duration := .num 10, callback := .func 1 }
          (Machine.idle Vars.init))))).log.count (Effect.call 1 []) = 0 :=
  ⟨(C8_overlapping_runs_share_variables (exampleEnv 300) (.num 100) (.num 200)
      { Options.none with duration := .num 10, callback := .func 1 }
      { Options.none with duration := .num 10, callback := .func 2 } Vars.init [1] [20, 40]
      (exampleWindow 310) (exampleEnv 300).querySelector
      (by decide) (by decide) (by decide)).1,
    by decide, by decide⟩

end Jump
